import Mathlib

/-!
# A shallow embedding of the openr KvStore replication core

This file embeds, in Lean 4, the parts of `src/openr/kvstore/KvStore.cpp`
needed to settle the claims about the key-value replication engine:

* the static merge function `KvStore::mergeKeyValues` (lines 258-414),
* `KvStore::compareValues` (lines 501-532) and `KvStore::dumpDifference`
  (lines 539-582),
* `KvStore::updatePublicationTtl` (lines 828-859),
* `KvStore::cleanupTtlCountdownQueue` (lines 1344-1393),
* `KvStore::mergePublication` (lines 1610-1669),
* the command dispatcher `KvStore::processRequestMsg` (lines 861-1056).

Modelling conventions:

* C++ `int64_t` fields are modelled as `Int` (no arithmetic in the embedded
  code can overflow 64 bits on the inputs we consider, so no wrap-around
  modelling is needed: the code only copies and compares these fields, and
  the TTL arithmetic subtracts small quantities).
* C++ `std::string` (byte strings) are modelled as Lean `String` with its
  lexicographic order; `std::string::compare` guarantees only the sign of
  its result, which we model through `<` / `=` comparisons.
* `std::unordered_map<std::string, T>` is modelled as an association list
  `List (String × T)`; iteration order of an unordered map is unspecified,
  and none of the verified properties depend on it.
* `folly::Optional<T>` is `Option T`.
* Time instants (`std::chrono::steady_clock::time_point`) are modelled as
  `Int` milliseconds; `now` is passed explicitly.
* Network and logging side effects are modelled by recording the calls in
  the state (e.g. a list of publications handed to `floodPublication`).
-/

namespace OpenrKv

/-- A list-based decision procedure for the lexicographic order on
`String` (the default iterator-based one does not reduce inside the
kernel, which concrete-input witnesses rely on). -/
instance (priority := 2000) strDecLt (s₁ s₂ : String) : Decidable (s₁ < s₂) :=
  decidable_of_iff (s₁.data < s₂.data) String.lt_iff_toList_lt.symm

/-- `thrift::Value` — the value record (version, originatorId, value, ttl,
ttlVersion, hash), cf. the data model of the KvStore thrift interface. -/
structure Value where
  version : Int
  originatorId : String
  value : Option String
  ttl : Int
  ttlVersion : Int
  hash : Option Int
  deriving Repr, DecidableEq

/-- `Constants::kTtlInfinity`. Modelled from the spec: the sentinel TTL
meaning "no expiry" (`openr/common/Constants.h` is not part of the sources;
the spec only requires a distinguished sentinel, whose concrete value is
`INT32_MIN` in the real constants header). -/
def kTtlInfinity : Int := -2147483648

/-- `generateHash` — Modelled from the spec: "hash (fingerprint of
(version, originator, value); recomputed if absent on receipt)".  The
concrete hash function lives in `openr/common/Util.cpp`, which is not part
of the sources; the embedding uses a simple deterministic fingerprint of
the three fields, which is all the verified properties depend on. -/
def strFingerprint (s : String) : Int :=
  s.foldl (fun a c => a * 131 + (c.toNat : Int)) 7

def generateHash (version : Int) (originatorId : String) (value : Option String) : Int :=
  version * 1000003 + strFingerprint originatorId * 31 +
    (match value with
     | some v => strFingerprint v
     | none => 19)

/-- Association-list lookup, modelling `unordered_map::find`. -/
def alookup {α : Type} : List (String × α) → String → Option α
  | [], _ => none
  | (k, v) :: rest, key => if k = key then some v else alookup rest key

/-- Association-list insert-or-assign, modelling `unordered_map::emplace`
(fresh key) / in-place assignment (existing key). -/
def ainsert {α : Type} : List (String × α) → String → α → List (String × α)
  | [], key, v => [(key, v)]
  | (k, w) :: rest, key, v =>
      if k = key then (k, v) :: rest else (k, w) :: ainsert rest key v

/-- Association-list erase, modelling `unordered_map::erase`. -/
def aerase {α : Type} : List (String × α) → String → List (String × α)
  | [], _ => []
  | (k, w) :: rest, key => if k = key then rest else (k, w) :: aerase rest key

/-- The record stored by the full-update path of `mergeKeyValues`
(lines 373-393): the incoming record, with the hash computed when
absent (lines 389-393). -/
def storedRecord (v : Value) : Value :=
  { v with hash := some (v.hash.getD (generateHash v.version v.originatorId v.value)) }

/-- `KvStoreFilters` (KvStore.cpp lines 24-44).  The key-prefix matcher
`KeyPrefix` (a regex set built from the prefixes, in `openr/common/Util`,
not part of the sources) is modelled from the spec: "filter rejects
`(k, v_new)` by key-prefix or originator list" — i.e. literal prefix
matching. -/
structure KvStoreFilters where
  keyPrefixList : List String
  originatorIds : List String
  deriving Repr, DecidableEq

/-- `KvStoreFilters::keyMatch` (KvStore.cpp lines 31-44). -/
def KvStoreFilters.keyMatch (f : KvStoreFilters) (key : String) (v : Value) : Bool :=
  if f.keyPrefixList.isEmpty && f.originatorIds.isEmpty then true
  else if (!f.keyPrefixList.isEmpty) && f.keyPrefixList.any (fun p => p.isPrefixOf key) then
    true
  else if (!f.originatorIds.isEmpty) && f.originatorIds.contains v.originatorId then true
  else false

/-- The per-key body of `KvStore::mergeKeyValues` (lines 277-404), acting
on the current stored record (if any) and the incoming record, after the
filter check.  Returns `some r` when the store entry for the key becomes
`r` (and the key is added to the update delta with the *incoming* record,
line 407), `none` when the key is skipped / left unchanged.

Notes on faithfulness:
* lines 284-286: TTL validity — skip unless infinite or positive;
* lines 297-300: skip when `newVersion < myVersion` (`myVersion = 0` when
  the key is absent);
* lines 308-335: `updateAllNeeded` / first `updateTtlNeeded` computation
  (incoming value present).  When the key is absent and
  `newVersion = myVersion = 0` the C++ dereferences the end iterator
  (line 313) — undefined behaviour, unreachable for well-formed records
  whose versions start at 1; the embedding skips in that case.  Line 322
  dereferences the stored record's optional value, relying on the store
  invariant that stored values are present; the embedding reads `""` for
  an absent stored value;
* lines 340-345: second `updateTtlNeeded` check (incoming value absent);
* lines 373-393: full update — store the incoming record, computing the
  hash when absent;
* lines 394-404: TTL-only update — only `ttl`, `ttlVersion` change. -/
def mergeKey (old : Option Value) (v : Value) : Option Value :=
  if v.ttl ≠ kTtlInfinity ∧ v.ttl ≤ 0 then none
  else
    match old with
    | none =>
        -- myVersion = 0 (lines 277-279)
        if v.version < 0 then none
        else if v.value.isSome then
          if 0 < v.version then
            -- updateAllNeeded (newVersion > myVersion); create new entry
            some (storedRecord v)
          else none -- newVersion = myVersion = 0 with key absent: UB in C++
        else none
    | some ov =>
        if v.version < ov.version then none
        else
          let updateAllNeeded : Bool :=
            match v.value with
            | none => false
            | some nv =>
                if ov.version < v.version then true
                else if ov.originatorId < v.originatorId then true
                else if v.originatorId = ov.originatorId then
                  decide (ov.value.getD "" < nv)
                else false
          let updateTtlNeeded : Bool :=
            (match v.value with
             | none => false
             | some nv =>
                if ov.version < v.version then false
                else if ov.originatorId < v.originatorId then false
                else if v.originatorId = ov.originatorId then
                  decide (¬ ov.value.getD "" < nv) && decide (nv = ov.value.getD "") &&
                    decide (ov.ttlVersion < v.ttlVersion)
                else false)
            ||
            (v.value.isNone && decide (v.version = ov.version) &&
              decide (v.originatorId = ov.originatorId) &&
              decide (ov.ttlVersion < v.ttlVersion))
          if updateAllNeeded then
            some (storedRecord v)
          else if updateTtlNeeded then
            some { ov with ttl := v.ttl, ttlVersion := v.ttlVersion }
          else none

/-- The loop body of `KvStore::mergeKeyValues` for one incoming key-value
(lines 268-408): filter check, per-key merge decision, store update and
delta collection. -/
def mergeKeyValuesStep (filters : Option KvStoreFilters)
    (acc : List (String × Value) × List (String × Value)) (kv : String × Value) :
    List (String × Value) × List (String × Value) :=
  -- filter check (lines 272-275)
  if (match filters with
      | some f => !f.keyMatch kv.1 kv.2
      | none => false) then acc
  else
    match mergeKey (alookup acc.1 kv.1) kv.2 with
    | some nv => (ainsert acc.1 kv.1 nv, acc.2 ++ [(kv.1, kv.2)])
    | none => acc

/-- `KvStore::mergeKeyValues` (lines 258-414): fold the per-key merge over
the incoming key-values, threading the store and collecting the update
delta (`kvUpdates`).  The delta records the *incoming* record (line 407). -/
def mergeKeyValues (kvStore : List (String × Value)) (keyVals : List (String × Value))
    (filters : Option KvStoreFilters) : List (String × Value) × List (String × Value) :=
  keyVals.foldl (mergeKeyValuesStep filters) (kvStore, [])

/-- `thrift::Publication` — the publication message: `keyVals`,
`expiredKeys`, `nodeIds` (loop-suppression trail), `floodRootId`,
`tobeUpdatedKeys` (three-way-sync responses only). -/
structure Publication where
  keyVals : List (String × Value) := []
  expiredKeys : List String := []
  nodeIds : Option (List String) := none
  floodRootId : Option String := none
  tobeUpdatedKeys : Option (List String) := none
  deriving Repr, DecidableEq

/-- `KvStore::compareValues` (lines 501-532).  Returns `1` when `v1` is
better, `-1` when `v2` is better, `0` when equal, `-2` when unknown.
`std::string::compare` (line 527) guarantees only the sign of its result;
the embedding returns the sign. -/
def compareValues (v1 v2 : Value) : Int :=
  if v1.version ≠ v2.version then (if v1.version > v2.version then 1 else -1)
  else if v1.originatorId ≠ v2.originatorId then
    (if v1.originatorId > v2.originatorId then 1 else -1)
  else if v1.hash.isSome ∧ v2.hash.isSome ∧ v1.hash = v2.hash then
    -- hashes are same => (version, originatorId, value are same)
    (if v1.ttlVersion ≠ v2.ttlVersion then (if v1.ttlVersion > v2.ttlVersion then 1 else -1)
     else 0)
  else
    match v1.value, v2.value with
    | some a, some b => if a > b then 1 else if a = b then 0 else -1
    | _, _ => -2 -- some value is missing: unknown

/-- The loop body of `KvStore::dumpDifference` (lines 554-579): one
common key is classified into `keyVals` (better in `myKeyVal` / only
there / unknown) and/or `tobeUpdatedKeys` (better in `reqKeyVal` / only
there / unknown). -/
def dumpDiffStep (myKeyVal reqKeyVal : List (String × Value)) (pub : Publication)
    (key : String) : Publication :=
  match alookup myKeyVal key, alookup reqKeyVal key with
  | none, _ =>
      -- not exist in myKeyVal
      { pub with tobeUpdatedKeys := some (pub.tobeUpdatedKeys.getD [] ++ [key]) }
  | some myVal, none =>
      -- not exist in reqKeyVal
      { pub with keyVals := pub.keyVals ++ [(key, myVal)] }
  | some myVal, some reqVal =>
      let rc := compareValues myVal reqVal
      let pub :=
        if rc = 1 ∨ rc = -2 then
          { pub with keyVals := pub.keyVals ++ [(key, myVal)] }
        else pub
      if rc = -1 ∨ rc = -2 then
        { pub with tobeUpdatedKeys := some (pub.tobeUpdatedKeys.getD [] ++ [key]) }
      else pub

/-- `KvStore::dumpDifference` (lines 539-582).  `allKeys` is the union of
the two key sets; the C++ iterates an `unordered_set` in unspecified
order, modelled here as the deduplicated concatenation of the key lists. -/
def dumpDifference (myKeyVal reqKeyVal : List (String × Value)) : Publication :=
  let allKeys : List String := (myKeyVal.map Prod.fst ++ reqKeyVal.map Prod.fst).dedup
  allKeys.foldl (dumpDiffStep myKeyVal reqKeyVal) { keyVals := [], tobeUpdatedKeys := some [] }

/-- `TtlCountdownQueueEntry` — a TTL countdown queue entry
`(expiryTime, key, version, ttlVersion, originatorId)` (declared in
KvStore.h, populated at KvStore.cpp lines 423-429). -/
structure TtlCountdownQueueEntry where
  expiryTime : Int
  key : String
  version : Int
  ttlVersion : Int
  originatorId : String
  deriving Repr, DecidableEq

/-- `KvStore::updatePublicationTtl` (lines 828-859): for each countdown
queue entry matching a publication key (same key, version, originatorId,
ttlVersion), drop the key when `expiryTime - now ≤ ttlDecr` (or, when
`removeAboutToExpire` is set, when it is below `Constants::kTtlThreshold`),
otherwise set the outgoing `ttl` to `expiryTime - now - ttlDecr`.
The countdown queue is iterated as a list. -/
def kTtlThreshold : Int := 500

/-- The loop body of `KvStore::updatePublicationTtl` for one countdown
queue entry (lines 832-858). -/
def updatePubTtlStep (ttlDecr : Int) (now : Int) (removeAboutToExpire : Bool)
    (pub : Publication) (qE : TtlCountdownQueueEntry) : Publication :=
  match alookup pub.keyVals qE.key with
  | none => pub
  | some v =>
      if v.version ≠ qE.version ∨ v.originatorId ≠ qE.originatorId ∨
          v.ttlVersion ≠ qE.ttlVersion then pub
      else
        let timeLeft := qE.expiryTime - now
        if timeLeft ≤ ttlDecr then
          { pub with keyVals := aerase pub.keyVals qE.key }
        else if removeAboutToExpire && timeLeft < kTtlThreshold then
          { pub with keyVals := aerase pub.keyVals qE.key }
        else
          { pub with keyVals := ainsert pub.keyVals qE.key { v with ttl := timeLeft - ttlDecr } }

def updatePublicationTtl (queue : List TtlCountdownQueueEntry) (ttlDecr : Int) (now : Int)
    (pub : Publication) (removeAboutToExpire : Bool) : Publication :=
  queue.foldl (updatePubTtlStep ttlDecr now removeAboutToExpire) pub

/-- The loop of `KvStore::cleanupTtlCountdownQueue` (lines 1350-1375):
pop entries while the top has expired; an entry removes its key exactly
when it still matches the current record (same version, originatorId,
ttlVersion).  The priority queue (min-heap on `expiryTime`) is modelled
as a list whose head is the top; theorems assume it sorted by
`expiryTime` (the heap invariant).  Returns
(new store, remaining queue, expired keys in pop order). -/
def cleanupLoop (kvStore : List (String × Value)) (queue : List TtlCountdownQueueEntry)
    (now : Int) : List (String × Value) × List TtlCountdownQueueEntry × List String :=
  match queue with
  | [] => (kvStore, [], [])
  | top :: rest =>
      if top.expiryTime > now then (kvStore, top :: rest, [])
      else
        match alookup kvStore top.key with
        | some v =>
            if v.version = top.version ∧ v.originatorId = top.originatorId ∧
                v.ttlVersion = top.ttlVersion then
              let r := cleanupLoop (aerase kvStore top.key) rest now
              (r.1, r.2.1, top.key :: r.2.2)
            else cleanupLoop kvStore rest now
        | none => cleanupLoop kvStore rest now

/-- `KvStore::cleanupTtlCountdownQueue` (lines 1344-1393): run the pop
loop, then — when at least one key expired — flood exactly one
publication carrying the expired keys.  Returns
(new store, remaining queue, the flooded publication if any). -/
def cleanupTtlCountdownQueue (kvStore : List (String × Value))
    (queue : List TtlCountdownQueueEntry) (now : Int) :
    List (String × Value) × List TtlCountdownQueueEntry × Option Publication :=
  let r := cleanupLoop kvStore queue now
  if r.2.2.isEmpty then (r.1, r.2.1, none)
  else (r.1, r.2.1, some { expiredKeys := r.2.2 })

/-- `KvStore::updateTtlCountdownQueue` (lines 416-442): push a countdown
entry (expiring at `now + ttl`) for every finite-TTL key of the
publication.  (Timer rescheduling is a scheduling side effect, elided.) -/
def updateTtlCountdownQueue (queue : List TtlCountdownQueueEntry) (now : Int)
    (pub : Publication) : List TtlCountdownQueueEntry :=
  pub.keyVals.foldl
    (fun queue kv =>
      if kv.2.ttl ≠ kTtlInfinity then
        queue ++ [{ expiryTime := now + kv.2.ttl, key := kv.1, version := kv.2.version,
                    ttlVersion := kv.2.ttlVersion, originatorId := kv.2.originatorId }]
      else queue)
    queue

/-- The KvStore state threaded through the stateful handlers: the store,
the TTL countdown queue, the configuration, the counters the claims talk
about, and ledgers recording the outward calls (`floodPublication`,
`finalizeFullSync`) whose network internals are elided. -/
structure KvState where
  nodeId : String
  kvStore : List (String × Value) := []
  ttlCountdownQueue : List TtlCountdownQueueEntry := []
  filters : Option KvStoreFilters := none
  peers : List String := []
  loopedPublications : Nat := 0
  receivedPublications : Nat := 0
  floodedPublications : List Publication := []
  finalizeFullSyncCalls : List (List String × String) := []
  dualMessagesProcessed : Nat := 0
  deriving Repr, DecidableEq

/-- Record a call of `KvStore::floodPublication` (lines 1515-1608).  Its
internals (rate limiting, TTL decrement, peer selection, socket sends)
are network side effects outside the store; the embedding records the
publication handed to it. -/
def KvState.flood (st : KvState) (pub : Publication) : KvState :=
  { st with floodedPublications := st.floodedPublications ++ [pub] }

/-- `KvStore::mergePublication` (lines 1610-1669), threading `KvState`
and returning the number of updated key-values (`kvUpdateCnt`). -/
def mergePublication (st : KvState) (now : Int) (rcvdPublication : Publication)
    (senderId : Option String) : KvState × Nat :=
  let st := { st with receivedPublications := st.receivedPublications + 1 }
  let needFinalizeFullSync :=
    senderId.isSome ∧ rcvdPublication.tobeUpdatedKeys.isSome ∧
      rcvdPublication.tobeUpdatedKeys.getD [] ≠ []
  -- This can happen when KvStore is emitting expired-key updates
  if rcvdPublication.keyVals.isEmpty ∧ ¬needFinalizeFullSync then (st, 0)
  -- Check for loop
  -- lines 1629-1634: `nodeIds.hasValue() and std::find(...) != end()`
  else if rcvdPublication.nodeIds.isSome ∧ st.nodeId ∈ rcvdPublication.nodeIds.getD [] then
    ({ st with loopedPublications := st.loopedPublications + 1 }, 0)
  else
    let merged := mergeKeyValues st.kvStore rcvdPublication.keyVals st.filters
    let deltaPublication : Publication :=
      { keyVals := merged.2, floodRootId := rcvdPublication.floodRootId,
        nodeIds := rcvdPublication.nodeIds }
    let kvUpdateCnt := deltaPublication.keyVals.length
    let st := { st with kvStore := merged.1,
                        ttlCountdownQueue :=
                          updateTtlCountdownQueue st.ttlCountdownQueue now deltaPublication }
    let st := if ¬deltaPublication.keyVals.isEmpty then st.flood deltaPublication else st
    let st :=
      if needFinalizeFullSync then
        { st with finalizeFullSyncCalls :=
            st.finalizeFullSyncCalls ++
              [(rcvdPublication.tobeUpdatedKeys.getD [], senderId.getD "")] }
      else st
    (st, kvUpdateCnt)

/-- `KvStore::getKeyVals` (lines 446-459). -/
def getKeyVals (kvStore : List (String × Value)) (keys : List String) : Publication :=
  keys.foldl
    (fun pub key =>
      match alookup kvStore key with
      | some v => { pub with keyVals := ainsert pub.keyVals key v }
      | none => pub)
    {}

/-- `KvStore::dumpAllWithFilters` (lines 463-474). -/
def dumpAllWithFilters (kvStore : List (String × Value)) (kvFilters : KvStoreFilters) :
    Publication :=
  { keyVals := kvStore.filter (fun kv => kvFilters.keyMatch kv.1 kv.2) }

/-- `KvStore::dumpHashWithFilters` (lines 478-494): per matching key, a
record carrying only (version, originatorId, hash, ttl, ttlVersion); the
`value` field is left default-initialized (absent). -/
def dumpHashWithFilters (kvStore : List (String × Value)) (kvFilters : KvStoreFilters) :
    Publication :=
  { keyVals :=
      (kvStore.filter (fun kv => kvFilters.keyMatch kv.1 kv.2)).map
        (fun kv =>
          (kv.1, { version := kv.2.version, originatorId := kv.2.originatorId,
                   value := none, ttl := kv.2.ttl, ttlVersion := kv.2.ttlVersion,
                   hash := kv.2.hash })) }

/-- `thrift::Command` — the request command enum. -/
inductive Command
  | keySet | keyGet | keyDump | hashDump | countersGet
  | peerAdd | peerDel | peerDump | dual | floodTopoSet | floodTopoGet
  deriving Repr, DecidableEq

/-- `thrift::KeySetParams`. -/
structure KeySetParams where
  keyVals : List (String × Value) := []
  nodeIds : Option (List String) := none
  floodRootId : Option String := none
  solicitResponse : Bool := true
  deriving Repr, DecidableEq

/-- `thrift::KvStoreRequest` — the tagged request envelope with optional
per-command parameter records.  Parameter payloads not inspected by the
dispatcher logic under study are reduced to the fields it checks. -/
structure KvStoreRequest where
  cmd : Command
  keySetParams : Option KeySetParams := none
  keyGetParams : Option (List String) := none -- `KeyGetParams.keys`
  keyDumpParams : Option (List String × List String × Option (List (String × Value))) := none
    -- `KeyDumpParams`: (prefix list, originatorIds, keyValHashes)
  peerAddParams : Option (List String) := none -- `PeerAddParams.peers` (names)
  peerDelParams : Option (List String) := none -- `PeerDelParams.peerNames`
  dualMessages : Option (List String) := none -- `DualMessages.messages` (opaque)
  floodTopoSetParams : Option String := none -- opaque payload
  deriving Repr, DecidableEq

/-- The dispatcher's reply, modelling `folly::Expected<fbzmq::Message, _>`:
`Except.error ()` is `folly::makeUnexpected(fbzmq::Error())`;
`Except.ok` carries the reply message (possibly the empty message). -/
inductive Reply
  | emptyMsg
  | okString -- Constants::kSuccessResponse
  | publication (p : Publication)
  | peersReply (peers : List String)
  | counters
  | sptInfos
  deriving Repr, DecidableEq

/-- `KvStore::addPeers` (lines 585-693) restricted to its registry effect:
the peers map gains the given names (socket (re)connection, backoff
bookkeeping and DUAL peer-up events are transport side effects, elided).
The key-value store is untouched. -/
def KvState.addPeers (st : KvState) (names : List String) : KvState :=
  { st with peers := names.foldl (fun ps n => if n ∈ ps then ps else ps ++ [n]) st.peers }

/-- `KvStore::delPeers` (lines 706-741) restricted to its registry effect. -/
def KvState.delPeers (st : KvState) (names : List String) : KvState :=
  { st with peers := st.peers.filter (fun p => p ∉ names) }

/-- `KvStore::processRequestMsg` (lines 861-1056): dispatch one decoded
request, returning the new state and the reply (`Except.error ()` models
`folly::makeUnexpected(fbzmq::Error())`).

Faithfulness notes:
* KEY_SET (881-917): missing `keySetParams` or empty `keyVals` → error;
  otherwise recompute the hash of every present value, build a
  publication and merge it (line 910: `mergePublication` without sender);
  reply "OK" when `solicitResponse`, else the empty message;
* KEY_GET (918-930), KEY_DUMP (931-964), HASH_DUMP (965-982): missing
  params → error, else the corresponding dump with TTL update;
* PEER_ADD (989-1003) / PEER_DEL (1004-1018): missing params or empty
  list → error;
* DUAL (1024-1037) and FLOOD_TOPO_SET (1038-1046): missing params or
  empty message list → the *empty message* ("ignore it"), not an error;
  `DualNode::processDualMessages` / `processFloodTopoSet` touch only DUAL
  state, modelled as a counter.
* `ttlDecr` is `Constants::kTtlDecrement` (1 ms), the configured
  decrement. -/
def processRequestMsg (st : KvState) (now : Int) (ttlDecr : Int) (req : KvStoreRequest) :
    KvState × Except Unit Reply :=
  match req.cmd with
  | .keySet =>
      match req.keySetParams with
      | none => (st, .error ())
      | some params =>
          if params.keyVals.isEmpty then (st, .error ())
          else
            -- Update hash for key-values (lines 897-903)
            let keyVals := params.keyVals.map (fun kv =>
              if kv.2.value.isSome then
                let h := generateHash kv.2.version kv.2.originatorId kv.2.value
                (kv.1, { kv.2 with hash := some h })
              else kv)
            let rcvdPublication : Publication :=
              { keyVals := keyVals, nodeIds := params.nodeIds,
                floodRootId := params.floodRootId }
            let st := (mergePublication st now rcvdPublication none).1
            if params.solicitResponse then (st, .ok .okString) else (st, .ok .emptyMsg)
  | .keyGet =>
      match req.keyGetParams with
      | none => (st, .error ())
      | some keys =>
          let pub := getKeyVals st.kvStore keys
          (st, .ok (.publication (updatePublicationTtl st.ttlCountdownQueue ttlDecr now pub false)))
  | .keyDump =>
      match req.keyDumpParams with
      | none => (st, .error ())
      | some params =>
          let pub := dumpAllWithFilters st.kvStore ⟨params.1, params.2.1⟩
          let pub :=
            match params.2.2 with
            | some keyValHashes => dumpDifference pub.keyVals keyValHashes
            | none => pub
          (st, .ok (.publication (updatePublicationTtl st.ttlCountdownQueue ttlDecr now pub false)))
  | .hashDump =>
      match req.keyDumpParams with
      | none => (st, .error ())
      | some params =>
          let pub := dumpHashWithFilters st.kvStore ⟨params.1, []⟩
          (st, .ok (.publication (updatePublicationTtl st.ttlCountdownQueue ttlDecr now pub false)))
  | .countersGet => (st, .ok .counters)
  | .peerAdd =>
      match req.peerAddParams with
      | none => (st, .error ())
      | some peers =>
          if peers.isEmpty then (st, .error ())
          else (st.addPeers peers, .ok (.peersReply (st.addPeers peers).peers))
  | .peerDel =>
      match req.peerDelParams with
      | none => (st, .error ())
      | some peerNames =>
          if peerNames.isEmpty then (st, .error ())
          else (st.delPeers peerNames, .ok (.peersReply (st.delPeers peerNames).peers))
  | .peerDump => (st, .ok (.peersReply st.peers))
  | .dual =>
      match req.dualMessages with
      | none => (st, .ok .emptyMsg) -- ignore it
      | some msgs =>
          if msgs.isEmpty then (st, .ok .emptyMsg) -- ignore it
          else ({ st with dualMessagesProcessed := st.dualMessagesProcessed + msgs.length },
                .ok .emptyMsg)
  | .floodTopoSet =>
      match req.floodTopoSetParams with
      | none => (st, .ok .emptyMsg) -- ignore it
      | some _ => (st, .ok .emptyMsg) -- processFloodTopoSet touches only DUAL state
  | .floodTopoGet => (st, .ok .sptInfos)

/-! ## Claim-side definitions and theorems -/

/-- "v_new.value is byte-lexicographically greater" (than the old value):
only meaningful when both values are present. -/
def valueBytesLt : Option String → Option String → Prop
  | some x, some y => x < y
  | _, _ => False

instance : (a b : Option String) → Decidable (valueBytesLt a b)
  | some x, some y => inferInstanceAs (Decidable (x < y))
  | none, none => inferInstanceAs (Decidable False)
  | none, some _ => inferInstanceAs (Decidable False)
  | some _, none => inferInstanceAs (Decidable False)

/-- The per-key merge decision as the C1 claim states it, written from the
claim's words (for comparison against `mergeKey`, which is written from
the source): skip on lower version; full replacement exactly when the
incoming value is present and (higher version, or equal version with
lexicographically greater originator, or equal version and originator with
byte-lexicographically greater value); TTL-only refresh (ttl and
ttl_version updated, value unchanged) exactly when version, originator and
value are all equal — or the incoming value is absent with equal version
and originator — and the incoming ttl_version is greater; otherwise
unchanged.  The old version is taken as 0 when the key is absent. -/
def claimC1Decision (old : Option Value) (v : Value) : Option Value :=
  let oldVersion : Int := match old with | some ov => ov.version | none => 0
  if v.version < oldVersion then none
  else
    match old with
    | none =>
        if v.value.isSome ∧ oldVersion < v.version then some (storedRecord v) else none
    | some ov =>
        if v.value.isSome ∧
            (ov.version < v.version ∨
             (v.version = ov.version ∧ ov.originatorId < v.originatorId) ∨
             (v.version = ov.version ∧ v.originatorId = ov.originatorId ∧
               valueBytesLt ov.value v.value)) then
          some (storedRecord v)
        else if ((v.version = ov.version ∧ v.originatorId = ov.originatorId ∧
                    v.value.isSome ∧ v.value = ov.value) ∨
                 (v.value.isNone ∧ v.version = ov.version ∧ v.originatorId = ov.originatorId)) ∧
                ov.ttlVersion < v.ttlVersion then
          some { ov with ttl := v.ttl, ttlVersion := v.ttlVersion }
        else none

/-- The central characterization lemma: under the TTL-validity check, the
store invariant (stored values present) and versions starting at 1, the
source-side `mergeKey` coincides with the decision-table `claimC1Decision`. -/
lemma mergeKey_eq_decision (old : Option Value) (v : Value)
    (httl : v.ttl = kTtlInfinity ∨ 0 < v.ttl)
    (hwf : ∀ ov, old = some ov → ov.value.isSome)
    (hver : old = none → 1 ≤ v.version) :
    mergeKey old v = claimC1Decision old v := by
  have httl' : ¬(v.ttl ≠ kTtlInfinity ∧ v.ttl ≤ 0) := by
    rcases httl with h | h
    · exact fun hc => hc.1 h
    · exact fun hc => absurd h (not_lt.mpr hc.2)
  cases old with
  | none =>
      have h1 : 1 ≤ v.version := hver rfl
      simp only [mergeKey, claimC1Decision, httl', if_false, if_neg]
      have hnlt : ¬(v.version < 0) := by omega
      have hpos : 0 < v.version := by omega
      cases hv : v.value with
      | none => simp [hnlt, hv]
      | some nv => simp [hnlt, hpos, hv]
  | some ov =>
      obtain ⟨ovv, hovv⟩ := Option.isSome_iff_exists.mp (hwf ov rfl)
      simp only [mergeKey, claimC1Decision, httl', if_false, if_neg]
      by_cases hlt : v.version < ov.version
      · simp [hlt]
      · simp only [hlt, if_false, if_neg, not_false_iff]
        cases hv : v.value with
        | none =>
            simp only [hv, Option.isSome_none, Option.isNone_none, Bool.false_and,
              Bool.false_or, Bool.true_and, if_false, Bool.or_eq_true, decide_eq_true_eq,
              Bool.and_eq_true]
            by_cases hveq : v.version = ov.version
            · by_cases horig : v.originatorId = ov.originatorId
              · by_cases httlv : ov.ttlVersion < v.ttlVersion
                · simp [hveq, horig, httlv]
                · simp [hveq, horig, httlv]
              · simp [hveq, horig]
            · simp [hveq]
        | some nv =>
            rcases lt_trichotomy ov.version v.version with hvv | hvv | hvv
            · simp [hv, hvv, hovv]
            · have hnv : ¬ov.version < v.version := by omega
              have hveq : v.version = ov.version := hvv.symm
              rcases lt_trichotomy ov.originatorId v.originatorId with ho | ho | ho
              · simp [hv, hnv, ho, hveq, hovv, ne_of_gt ho]
              · have hon : ¬ov.originatorId < v.originatorId := by simp [ho]
                have hoeq : v.originatorId = ov.originatorId := ho.symm
                rcases lt_trichotomy ovv nv with hval | hval | hval
                · simp [hv, hnv, hon, hoeq, hovv, hval, valueBytesLt, hveq]
                · by_cases httlv : ov.ttlVersion < v.ttlVersion
                  · simp [hv, hnv, hon, hoeq, hovv, hval, valueBytesLt, httlv, hveq]
                  · simp [hv, hnv, hon, hoeq, hovv, hval, valueBytesLt, httlv, hveq]
                · simp [hv, hnv, hon, hoeq, hovv, valueBytesLt, not_lt.mpr (le_of_lt hval),
                    ne_of_gt hval, hveq]
              · have hon : ¬ov.originatorId < v.originatorId := not_lt.mpr (le_of_lt ho)
                have hone : ¬v.originatorId = ov.originatorId := fun h => absurd h.symm (ne_of_gt ho)
                simp [hv, hnv, hon, hone, hveq]
            · exact absurd hvv hlt

/-- **C1** — For every incoming record passing the filter and TTL-validity
checks, the per-key decision of `mergeKeyValues` matches the claim's
decision table: skip on lower version (old version taken as 0 when the key
is absent); full replacement exactly on (higher version | equal version,
lexicographically greater originator | equal version and originator,
byte-lexicographically greater value) with a present incoming value;
TTL-only refresh (ttl and ttl_version updated, value unchanged) exactly on
all-of-version-originator-value equal (or absent incoming value with equal
version and originator) with a greater incoming ttl_version; otherwise the
record is left unchanged.  Hypotheses: the incoming record passes the
TTL-validity check; stored records have a present value (the store
invariant, cf. C10); and when the key is absent the incoming version is at
least 1 (versions start at 1 — below that the C++ dereferences the end
iterator). -/
theorem mergeKey_matches_claim (old : Option Value) (v : Value)
    (httl : v.ttl = kTtlInfinity ∨ 0 < v.ttl)
    (hwf : ∀ ov, old = some ov → ov.value.isSome)
    (hver : old = none → 1 ≤ v.version) :
    mergeKey old v = claimC1Decision old v :=
  mergeKey_eq_decision old v httl hwf hver

/-- Witness for C1: the theorem applied at a concrete store record and
incoming record (a higher-version full replacement). -/
theorem mergeKey_matches_claim_witness :
    mergeKey (some ⟨1, "a", some "v1", kTtlInfinity, 0, none⟩)
        ⟨2, "a", some "v2", 5000, 0, none⟩ =
      claimC1Decision (some ⟨1, "a", some "v1", kTtlInfinity, 0, none⟩)
        ⟨2, "a", some "v2", 5000, 0, none⟩ :=
  mergeKey_matches_claim _ _ (Or.inr (by decide))
    (fun ov h => by cases h; rfl) (fun h => by cases h)

/-! ### Association-list lemmas -/

lemma alookup_ainsert_self {α : Type} (l : List (String × α)) (k : String) (v : α) :
    alookup (ainsert l k v) k = some v := by
  induction l with
  | nil => simp [ainsert, alookup]
  | cons hd tl ih =>
      obtain ⟨k1, v1⟩ := hd
      by_cases h : k1 = k
      · simp [ainsert, alookup, h]
      · simpa [ainsert, alookup, h] using ih

lemma alookup_ainsert_ne {α : Type} (l : List (String × α)) (k k' : String) (v : α)
    (h : k' ≠ k) : alookup (ainsert l k v) k' = alookup l k' := by
  induction l with
  | nil => simp [ainsert, alookup, Ne.symm h]
  | cons hd tl ih =>
      obtain ⟨k1, v1⟩ := hd
      by_cases hh : k1 = k
      · subst hh
        simp [ainsert, alookup, Ne.symm h]
      · by_cases hk' : k1 = k'
        · simp [ainsert, alookup, hh, hk', h]
        · simpa [ainsert, alookup, hh, hk'] using ih

lemma alookup_aerase_ne {α : Type} (l : List (String × α)) (k k' : String)
    (h : k' ≠ k) : alookup (aerase l k) k' = alookup l k' := by
  induction l with
  | nil => simp [aerase]
  | cons hd tl ih =>
      obtain ⟨k1, v1⟩ := hd
      by_cases hh : k1 = k
      · subst hh
        simp [aerase, alookup, Ne.symm h]
      · by_cases hk' : k1 = k'
        · simp [aerase, alookup, hh, hk', h]
        · simpa [aerase, alookup, hh, hk'] using ih

/-- A binding absent from the key list is not found. -/
lemma alookup_eq_none_of_not_mem {α : Type} (l : List (String × α)) (k : String)
    (h : k ∉ l.map Prod.fst) : alookup l k = none := by
  induction l with
  | nil => rfl
  | cons hd tl ih =>
      obtain ⟨k1, v1⟩ := hd
      simp only [List.map_cons, List.mem_cons] at h
      push_neg at h
      simp only [alookup, if_neg (Ne.symm h.1)]
      exact ih h.2

/-- `aerase` really removes the key when the store keys are distinct. -/
lemma alookup_aerase_self {α : Type} (l : List (String × α)) (k : String)
    (hnd : (l.map Prod.fst).Nodup) : alookup (aerase l k) k = none := by
  induction l with
  | nil => simp [aerase, alookup]
  | cons hd tl ih =>
      obtain ⟨k1, v1⟩ := hd
      simp only [List.map_cons, List.nodup_cons] at hnd
      by_cases hh : k1 = k
      · subst hh
        simp only [aerase, if_pos rfl]
        exact alookup_eq_none_of_not_mem tl k1 hnd.1
      · simpa [aerase, alookup, hh] using ih hnd.2

/-! ### C5 — merge determinism -/

/-- The `(version, originator_id, value, ttl_version)` signature of a
record — the tuple the §4.1 total order is applied to. -/
def Value.sig (v : Value) : Int × String × Option String × Int :=
  (v.version, v.originatorId, v.value, v.ttlVersion)

@[simp] lemma storedRecord_version (v : Value) : (storedRecord v).version = v.version := rfl
@[simp] lemma storedRecord_originatorId (v : Value) :
    (storedRecord v).originatorId = v.originatorId := rfl
@[simp] lemma storedRecord_value (v : Value) : (storedRecord v).value = v.value := rfl
@[simp] lemma storedRecord_ttl (v : Value) : (storedRecord v).ttl = v.ttl := rfl
@[simp] lemma storedRecord_ttlVersion (v : Value) : (storedRecord v).ttlVersion = v.ttlVersion := rfl

/-- `merge(store, v)` for a single key, as in the §8 property
"merge(merge(∅, v1), v2)": one `mergeKeyValues` call with a singleton
incoming map and no filter, keeping the resulting store. -/
def mergeOneKey (st : List (String × Value)) (k : String) (v : Value) :
    List (String × Value) :=
  (mergeKeyValues st [(k, v)] none).1

lemma mergeOneKey_alookup (st : List (String × Value)) (k : String) (v : Value) :
    alookup (mergeOneKey st k v) k =
      (match mergeKey (alookup st k) v with
       | some nv => some nv
       | none => alookup st k) := by
  unfold mergeOneKey mergeKeyValues
  simp only [List.foldl_cons, List.foldl_nil]
  cases h : mergeKey (alookup st k) v with
  | some nv => simp [mergeKeyValuesStep, h, alookup_ainsert_self]
  | none => simp [mergeKeyValuesStep, h]

lemma mergeKey_skip_invalid (old : Option Value) (v : Value)
    (h : v.ttl ≠ kTtlInfinity ∧ v.ttl ≤ 0) : mergeKey old v = none := by
  cases old <;> simp [mergeKey, h]

lemma mergeKey_none_valid (v : Value) (hval : v.value.isSome) (hver : 1 ≤ v.version)
    (httl : ¬(v.ttl ≠ kTtlInfinity ∧ v.ttl ≤ 0)) :
    mergeKey none v = some (storedRecord v) := by
  have h0 : ¬v.version < 0 := by omega
  have h1 : 0 < v.version := by omega
  simp [mergeKey, httl, hval, h0, h1]

lemma mergeOneKey_store_none (st : List (String × Value)) (k : String) (v : Value)
    (h : mergeKey (alookup st k) v = none) : mergeOneKey st k v = st := by
  unfold mergeOneKey mergeKeyValues
  simp [mergeKeyValuesStep, h]

lemma mergeOneKey_store_some (st : List (String × Value)) (k : String) (v nv : Value)
    (h : mergeKey (alookup st k) v = some nv) : mergeOneKey st k v = ainsert st k nv := by
  unfold mergeOneKey mergeKeyValues
  simp [mergeKeyValuesStep, h]

/-- **C5 counterexample** — two records of the same key that are equal in
(version, originator, value, ttl_version) but carry different `ttl`s: the
post-merge record keeps the `ttl` of whichever arrived first, so the final
stored records differ between the two arrival orders, refuting
"the post-merge record is identical regardless of arrival order". -/
theorem merge_order_dependence_counterexample :
    alookup (mergeOneKey (mergeOneKey [] "k" ⟨1, "a", some "x", 5000, 1, none⟩) "k"
        ⟨1, "a", some "x", 6000, 1, none⟩) "k" ≠
    alookup (mergeOneKey (mergeOneKey [] "k" ⟨1, "a", some "x", 6000, 1, none⟩) "k"
        ⟨1, "a", some "x", 5000, 1, none⟩) "k" := by decide

/-- **C5 (amended)** — for any two records of the same key whose values
are present and whose versions are at least 1, merging them into an empty
store in either order yields stored records that agree on the
`(version, originator_id, value, ttl_version)` tuple ordered by §4.1 (the
`ttl` field — and, for inconsistent incoming hashes, the `hash` field —
may depend on arrival order, as the counterexample shows). -/
theorem merge_sig_order_independent (k : String) (v1 v2 : Value)
    (h1 : v1.value.isSome) (h2 : v2.value.isSome)
    (hver1 : 1 ≤ v1.version) (hver2 : 1 ≤ v2.version) :
    (alookup (mergeOneKey (mergeOneKey [] k v1) k v2) k).map Value.sig =
    (alookup (mergeOneKey (mergeOneKey [] k v2) k v1) k).map Value.sig := by
  obtain ⟨nv1, hnv1⟩ := Option.isSome_iff_exists.mp h1
  obtain ⟨nv2, hnv2⟩ := Option.isSome_iff_exists.mp h2
  by_cases hval1 : v1.ttl ≠ kTtlInfinity ∧ v1.ttl ≤ 0
  · -- v1 fails the TTL-validity check and is skipped in both positions
    have s1 : mergeOneKey [] k v1 = [] :=
      mergeOneKey_store_none _ _ _ (mergeKey_skip_invalid _ _ hval1)
    rw [s1]
    by_cases hval2 : v2.ttl ≠ kTtlInfinity ∧ v2.ttl ≤ 0
    · have s2 : mergeOneKey [] k v2 = [] :=
        mergeOneKey_store_none _ _ _ (mergeKey_skip_invalid _ _ hval2)
      rw [s2, s1]
    · have s2 : mergeOneKey [] k v2 = ainsert [] k (storedRecord v2) :=
        mergeOneKey_store_some _ _ _ _
          (by rw [show alookup ([] : List (String × Value)) k = none from rfl]
              exact mergeKey_none_valid v2 h2 hver2 hval2)
      rw [s2]
      have s3 : mergeOneKey (ainsert [] k (storedRecord v2)) k v1 =
          ainsert [] k (storedRecord v2) :=
        mergeOneKey_store_none _ _ _
          (by rw [alookup_ainsert_self]; exact mergeKey_skip_invalid _ _ hval1)
      rw [s3]
  · by_cases hval2 : v2.ttl ≠ kTtlInfinity ∧ v2.ttl ≤ 0
    · -- v2 fails the TTL-validity check and is skipped in both positions
      have s1 : mergeOneKey [] k v1 = ainsert [] k (storedRecord v1) :=
        mergeOneKey_store_some _ _ _ _
          (by rw [show alookup ([] : List (String × Value)) k = none from rfl]
              exact mergeKey_none_valid v1 h1 hver1 hval1)
      have s2 : mergeOneKey [] k v2 = [] :=
        mergeOneKey_store_none _ _ _ (mergeKey_skip_invalid _ _ hval2)
      rw [s1, s2, s1]
      have s3 : mergeOneKey (ainsert [] k (storedRecord v1)) k v2 =
          ainsert [] k (storedRecord v1) :=
        mergeOneKey_store_none _ _ _
          (by rw [alookup_ainsert_self]; exact mergeKey_skip_invalid _ _ hval2)
      rw [s3]
    · -- both records are valid: the interesting case
      have httl1 : v1.ttl = kTtlInfinity ∨ 0 < v1.ttl := by
        rcases not_and_or.mp hval1 with h | h
        · exact Or.inl (not_not.mp h)
        · exact Or.inr (lt_of_not_le h)
      have httl2 : v2.ttl = kTtlInfinity ∨ 0 < v2.ttl := by
        rcases not_and_or.mp hval2 with h | h
        · exact Or.inl (not_not.mp h)
        · exact Or.inr (lt_of_not_le h)
      have s1 : mergeOneKey [] k v1 = ainsert [] k (storedRecord v1) :=
        mergeOneKey_store_some _ _ _ _
          (by rw [show alookup ([] : List (String × Value)) k = none from rfl]
              exact mergeKey_none_valid v1 h1 hver1 hval1)
      have s2 : mergeOneKey [] k v2 = ainsert [] k (storedRecord v2) :=
        mergeOneKey_store_some _ _ _ _
          (by rw [show alookup ([] : List (String × Value)) k = none from rfl]
              exact mergeKey_none_valid v2 h2 hver2 hval2)
      rw [s1, s2, mergeOneKey_alookup, mergeOneKey_alookup,
        alookup_ainsert_self, alookup_ainsert_self]
      have hw1 : (storedRecord v1).value.isSome := h1
      have hw2 : (storedRecord v2).value.isSome := h2
      rw [mergeKey_eq_decision (some (storedRecord v1)) v2 httl2
            (fun ov h => by cases h; exact hw1) (fun h => by cases h),
          mergeKey_eq_decision (some (storedRecord v2)) v1 httl1
            (fun ov h => by cases h; exact hw2) (fun h => by cases h)]
      rcases lt_trichotomy v1.version v2.version with hvv | hvv | hvv
      · have d1 : claimC1Decision (some (storedRecord v1)) v2 = some (storedRecord v2) := by
          simp [claimC1Decision, h2, hvv, not_lt_of_gt hvv]
        have d2 : claimC1Decision (some (storedRecord v2)) v1 = none := by
          simp [claimC1Decision, hvv]
        simp [d1, d2, Value.sig]
      · rcases lt_trichotomy v1.originatorId v2.originatorId with hoo | hoo | hoo
        · -- equal versions, v2's originator wins
          have d1 : claimC1Decision (some (storedRecord v1)) v2 = some (storedRecord v2) := by
            simp [claimC1Decision, h2, hvv, hoo]
          have d2 : claimC1Decision (some (storedRecord v2)) v1 = none := by
            simp [claimC1Decision, hnv1, hnv2, hvv, hoo.asymm, hoo.ne, hoo.ne',
              valueBytesLt]
          simp [d1, d2, Value.sig]
        · -- equal versions and originators: compare values
          rcases lt_trichotomy nv1 nv2 with hnn | hnn | hnn
          · have d1 : claimC1Decision (some (storedRecord v1)) v2 = some (storedRecord v2) := by
              simp [claimC1Decision, hnv1, hnv2, hvv, hoo, hnn, valueBytesLt]
            have d2 : claimC1Decision (some (storedRecord v2)) v1 = none := by
              simp [claimC1Decision, hnv1, hnv2, hvv, hoo, hnn.asymm, hnn.ne, hnn.ne',
                valueBytesLt]
            simp [d1, d2, Value.sig]
          · -- versions, originators and values all equal: TTL refresh direction
            rcases lt_trichotomy v1.ttlVersion v2.ttlVersion with htt | htt | htt
            · have d1 : claimC1Decision (some (storedRecord v1)) v2 =
                  some { storedRecord v1 with ttl := v2.ttl, ttlVersion := v2.ttlVersion } := by
                simp [claimC1Decision, hnv1, hnv2, hvv, hoo, hnn, htt, valueBytesLt]
              have d2 : claimC1Decision (some (storedRecord v2)) v1 = none := by
                simp [claimC1Decision, hnv1, hnv2, hvv, hoo, hnn, htt.asymm, valueBytesLt]
              simp [d1, d2, Value.sig, hvv, hoo, hnv1, hnv2, hnn]
            · have d1 : claimC1Decision (some (storedRecord v1)) v2 = none := by
                simp [claimC1Decision, hnv1, hnv2, hvv, hoo, hnn, htt, valueBytesLt]
              have d2 : claimC1Decision (some (storedRecord v2)) v1 = none := by
                simp [claimC1Decision, hnv1, hnv2, hvv, hoo, hnn, htt, valueBytesLt]
              simp [d1, d2, Value.sig, hvv, hoo, hnv1, hnv2, hnn, htt]
            · have d1 : claimC1Decision (some (storedRecord v1)) v2 = none := by
                simp [claimC1Decision, hnv1, hnv2, hvv, hoo, hnn, htt.asymm, valueBytesLt]
              have d2 : claimC1Decision (some (storedRecord v2)) v1 =
                  some { storedRecord v2 with ttl := v1.ttl, ttlVersion := v1.ttlVersion } := by
                simp [claimC1Decision, hnv1, hnv2, hvv, hoo, hnn, htt, valueBytesLt]
              simp [d1, d2, Value.sig, hvv, hoo, hnv1, hnv2, hnn]
          · have d1 : claimC1Decision (some (storedRecord v1)) v2 = none := by
              simp [claimC1Decision, hnv1, hnv2, hvv, hoo, hnn.asymm, hnn.ne, hnn.ne',
                valueBytesLt]
            have d2 : claimC1Decision (some (storedRecord v2)) v1 = some (storedRecord v1) := by
              simp [claimC1Decision, hnv1, hnv2, hvv, hoo, hnn, valueBytesLt]
            simp [d1, d2, Value.sig]
        · -- equal versions, v1's originator wins
          have d1 : claimC1Decision (some (storedRecord v1)) v2 = none := by
            simp [claimC1Decision, hnv1, hnv2, hvv, hoo.asymm, hoo.ne, hoo.ne',
              valueBytesLt]
          have d2 : claimC1Decision (some (storedRecord v2)) v1 = some (storedRecord v1) := by
            simp [claimC1Decision, h1, hvv, hoo]
          simp [d1, d2, Value.sig]
      · -- v1's version wins
        have d1 : claimC1Decision (some (storedRecord v1)) v2 = none := by
          simp [claimC1Decision, hnv1, hnv2, hvv, hvv.asymm, hvv.ne, hvv.ne',
            valueBytesLt]
        have d2 : claimC1Decision (some (storedRecord v2)) v1 = some (storedRecord v1) := by
          simp [claimC1Decision, h1, hvv, not_lt_of_gt hvv]
        simp [d1, d2, Value.sig]

/-- Witness for the amended C5: the theorem applied to two concrete
records with equal versions and distinct originators. -/
theorem merge_sig_order_independent_witness :
    (alookup (mergeOneKey (mergeOneKey [] "k" ⟨1, "a", some "x", 5000, 1, none⟩) "k"
        ⟨1, "b", some "y", 6000, 2, none⟩) "k").map Value.sig =
    (alookup (mergeOneKey (mergeOneKey [] "k" ⟨1, "b", some "y", 6000, 2, none⟩) "k"
        ⟨1, "a", some "x", 5000, 1, none⟩) "k").map Value.sig :=
  merge_sig_order_independent "k" _ _ (by decide) (by decide) (by decide) (by decide)

/-! ### C6 — merge monotonicity -/

/-- The value-component order used to compare records whose `value` may be
absent: an absent value is below any present one. -/
def optValLt : Option String → Option String → Prop
  | none, some _ => True
  | some x, some y => x < y
  | _, _ => False

instance : (a b : Option String) → Decidable (optValLt a b)
  | none, some _ => inferInstanceAs (Decidable True)
  | some x, some y => inferInstanceAs (Decidable (x < y))
  | none, none => inferInstanceAs (Decidable False)
  | some _, none => inferInstanceAs (Decidable False)

/-- Strict §4.1 order on records: lexicographic on
`(version, originator_id, value, ttl_version)`. -/
def specLt (a b : Value) : Prop :=
  a.version < b.version ∨
  (a.version = b.version ∧ (a.originatorId < b.originatorId ∨
    (a.originatorId = b.originatorId ∧ (optValLt a.value b.value ∨
      (a.value = b.value ∧ a.ttlVersion < b.ttlVersion)))))

/-- Non-strict §4.1 order: strictly below, or equal on the
`(version, originator_id, value, ttl_version)` tuple. -/
def specLe (a b : Value) : Prop := specLt a b ∨ Value.sig a = Value.sig b

instance (a b : Value) : Decidable (specLt a b) := by
  unfold specLt; infer_instance

instance (a b : Value) : Decidable (specLe a b) := by
  unfold specLe; infer_instance

/-- **C6 counterexample** — an incoming record with a higher version but an
absent value is skipped entirely by `mergeKeyValues` (the TTL-only path
requires an equal version), so the stored record stays strictly below the
incoming one in the §4.1 order: the claim "the record stored for that key
is ≥ both v_old and v_new" fails. -/
theorem merge_monotone_counterexample :
    mergeKey (some ⟨1, "a", some "x", kTtlInfinity, 0, some 1⟩)
        ⟨2, "a", none, kTtlInfinity, 5, none⟩ = none ∧
    ¬ specLe ⟨2, "a", none, kTtlInfinity, 5, none⟩
        ⟨1, "a", some "x", kTtlInfinity, 0, some 1⟩ := by decide

/-- **C6 (amended)** — for incoming records that pass the TTL-validity
check and whose `value` is present (the only records that can install a
new version), the record stored after the per-key merge is ≥ both the old
record and the incoming one under the §4.1
`(version, originator_id, value, ttl_version)` order.  The old record is
assumed to satisfy the store invariant (present value, cf. C10). -/
theorem merge_monotone (ov v : Value)
    (hov : ov.value.isSome) (hv : v.value.isSome)
    (httl : v.ttl = kTtlInfinity ∨ 0 < v.ttl) :
    specLe ov ((mergeKey (some ov) v).getD ov) ∧
    specLe v ((mergeKey (some ov) v).getD ov) := by
  obtain ⟨ovv, hovv⟩ := Option.isSome_iff_exists.mp hov
  obtain ⟨nvv, hnvv⟩ := Option.isSome_iff_exists.mp hv
  rw [mergeKey_eq_decision (some ov) v httl (fun o h => by cases h; exact hov)
      (fun h => by cases h)]
  rcases lt_trichotomy ov.version v.version with hvv | hvv | hvv
  · have d : claimC1Decision (some ov) v = some (storedRecord v) := by
      simp [claimC1Decision, hv, hvv, not_lt_of_gt hvv]
    refine ⟨Or.inl (Or.inl ?_), Or.inr ?_⟩ <;> simp [d, Value.sig, hvv]
  · rcases lt_trichotomy ov.originatorId v.originatorId with hoo | hoo | hoo
    · have d : claimC1Decision (some ov) v = some (storedRecord v) := by
        simp [claimC1Decision, hv, hvv, hoo]
      constructor
      · exact Or.inl (by simp [d, specLt, hvv, hoo])
      · exact Or.inr (by simp [d, Value.sig])
    · rcases lt_trichotomy ovv nvv with hnn | hnn | hnn
      · have d : claimC1Decision (some ov) v = some (storedRecord v) := by
          simp [claimC1Decision, hovv, hnvv, hvv, hoo, hnn, valueBytesLt]
        constructor
        · exact Or.inl (by simp [d, specLt, hvv, hoo, hovv, hnvv, optValLt, hnn])
        · exact Or.inr (by simp [d, Value.sig])
      · rcases lt_trichotomy ov.ttlVersion v.ttlVersion with htt | htt | htt
        · have d : claimC1Decision (some ov) v =
              some { ov with ttl := v.ttl, ttlVersion := v.ttlVersion } := by
            simp [claimC1Decision, hovv, hnvv, hvv, hoo, hnn, htt, valueBytesLt]
          constructor
          · exact Or.inl (by simp [d, specLt, htt])
          · exact Or.inr (by simp [d, Value.sig, hvv, hoo, hovv, hnvv, hnn])
        · have d : claimC1Decision (some ov) v = none := by
            simp [claimC1Decision, hovv, hnvv, hvv, hoo, hnn, htt, valueBytesLt]
          constructor
          · exact Or.inr (by simp [d])
          · exact Or.inr (by simp [d, Value.sig, hvv, hoo, hovv, hnvv, hnn, htt])
        · have d : claimC1Decision (some ov) v = none := by
            simp [claimC1Decision, hovv, hnvv, hvv, hoo, hnn, htt.asymm, valueBytesLt]
          constructor
          · exact Or.inr (by simp [d])
          · exact Or.inl (by simp [d, specLt, hvv, hoo, hovv, hnvv, hnn, htt])
      · have d : claimC1Decision (some ov) v = none := by
          simp [claimC1Decision, hovv, hnvv, hvv, hoo, hnn.asymm, hnn.ne, hnn.ne',
            valueBytesLt]
        constructor
        · exact Or.inr (by simp [d])
        · exact Or.inl (by simp [d, specLt, hvv, hoo, hovv, hnvv, optValLt, hnn])
    · have d : claimC1Decision (some ov) v = none := by
        simp [claimC1Decision, hovv, hnvv, hvv, hoo.asymm, hoo.ne, hoo.ne', valueBytesLt]
      constructor
      · exact Or.inr (by simp [d])
      · exact Or.inl (by simp [d, specLt, hvv, hoo])
  · have d : claimC1Decision (some ov) v = none := by
      simp [claimC1Decision, hvv]
    constructor
    · exact Or.inr (by simp [d])
    · exact Or.inl (by simp [d, specLt, hvv])

/-- Witness for the amended C6: the theorem applied to a concrete stored
record and a concrete TTL-refresh record. -/
theorem merge_monotone_witness :
    specLe ⟨1, "a", some "x", 5000, 1, some 7⟩
      ((mergeKey (some ⟨1, "a", some "x", 5000, 1, some 7⟩)
        ⟨1, "a", some "x", 9000, 2, some 7⟩).getD ⟨1, "a", some "x", 5000, 1, some 7⟩) ∧
    specLe ⟨1, "a", some "x", 9000, 2, some 7⟩
      ((mergeKey (some ⟨1, "a", some "x", 5000, 1, some 7⟩)
        ⟨1, "a", some "x", 9000, 2, some 7⟩).getD ⟨1, "a", some "x", 5000, 1, some 7⟩) :=
  merge_monotone _ _ (by decide) (by decide) (Or.inr (by decide))

/-! ### C7 — idempotence of re-merging an identical record -/

/-- Merging a record against an identical stored record changes nothing:
every branch of the decision ladder falls through. -/
lemma mergeKey_self (v : Value) : mergeKey (some v) v = none := by
  by_cases h : v.ttl ≠ kTtlInfinity ∧ v.ttl ≤ 0
  · exact mergeKey_skip_invalid _ _ h
  · cases hv : v.value <;> simp [mergeKey, h, hv]

/-- **C7** — for every key whose stored record has a present hash, calling
`mergeKeyValues` again with exactly the same record (same version,
originator, value, ttl, ttl_version) returns an empty delta and leaves the
store unchanged, for any filter configuration. -/
theorem remerge_same_record_noop (store : List (String × Value)) (k : String) (v : Value)
    (hstore : alookup store k = some v) (_hhash : v.hash.isSome)
    (filters : Option KvStoreFilters) :
    mergeKeyValues store [(k, v)] filters = (store, []) := by
  unfold mergeKeyValues
  simp only [List.foldl_cons, List.foldl_nil]
  cases hf : (match filters with
              | some f => !f.keyMatch k v
              | none => false) with
  | true => simp [mergeKeyValuesStep, hf]
  | false => simp [mergeKeyValuesStep, hf, hstore, mergeKey_self]

/-- Witness for C7: the theorem applied to a concrete one-record store. -/
theorem remerge_same_record_noop_witness :
    mergeKeyValues [("k", ⟨3, "a", some "x", 5000, 1, some 42⟩)]
        [("k", ⟨3, "a", some "x", 5000, 1, some 42⟩)] none =
      ([("k", ⟨3, "a", some "x", 5000, 1, some 42⟩)], []) :=
  remerge_same_record_noop _ _ _ (by decide) (by decide) none

/-! ### C2 — dumpDifference characterization -/

lemma alookup_append {α : Type} (l₁ l₂ : List (String × α)) (k : String) :
    alookup (l₁ ++ l₂) k =
      (match alookup l₁ k with
       | some v => some v
       | none => alookup l₂ k) := by
  induction l₁ with
  | nil => simp [alookup]
  | cons hd tl ih =>
      obtain ⟨k1, v1⟩ := hd
      by_cases h : k1 = k
      · simp [alookup, h]
      · simpa [alookup, h] using ih

lemma alookup_mem_of_isSome {α : Type} (l : List (String × α)) (k : String)
    (h : (alookup l k).isSome) : k ∈ l.map Prod.fst := by
  induction l with
  | nil => simp [alookup] at h
  | cons hd tl ih =>
      obtain ⟨k1, v1⟩ := hd
      by_cases hh : k1 = k
      · simp [hh]
      · simp only [alookup, if_neg hh] at h
        simp [ih h]

lemma alookup_isSome_of_mem {α : Type} (l : List (String × α)) (k : String)
    (h : k ∈ l.map Prod.fst) : (alookup l k).isSome := by
  induction l with
  | nil => simp at h
  | cons hd tl ih =>
      obtain ⟨k1, v1⟩ := hd
      by_cases hh : k1 = k
      · simp [alookup, hh]
      · simp only [List.map_cons, List.mem_cons] at h
        rcases h with h | h
        · exact absurd h.symm hh
        · simpa [alookup, hh] using ih h

/-- The C2 claim's characterization of `keyVals`: the entry returned for a
key is the responder's record exactly when the key is absent from the
request digest, or the responder's record is strictly better (`rc = 1`)
or incomparable (`rc = -2`) under `compareValues`. -/
def claimC2KeyVals (my req : List (String × Value)) (k : String) : Option Value :=
  match alookup my k, alookup req k with
  | some mv, none => some mv
  | some mv, some rv =>
      if compareValues mv rv = 1 ∨ compareValues mv rv = -2 then some mv else none
  | none, _ => none

/-- The C2 claim's condition for a key to be listed in
`tobe_updated_keys` (given it occurs in one of the two maps): absent from
the responder's dump, or the request's record is strictly better
(`rc = -1`) or incomparable (`rc = -2`). -/
def claimC2TobeCond (my req : List (String × Value)) (k : String) : Prop :=
  alookup my k = none ∨
    (∃ mv rv, alookup my k = some mv ∧ alookup req k = some rv ∧
      (compareValues mv rv = -1 ∨ compareValues mv rv = -2))

lemma alookup_append_single_ne {α : Type} (l : List (String × α)) (key k : String)
    (v : α) (h : k ≠ key) : alookup (l ++ [(key, v)]) k = alookup l k := by
  rw [alookup_append]
  cases alookup l k <;> simp [alookup, Ne.symm h]

lemma alookup_append_single_self {α : Type} (l : List (String × α)) (key : String)
    (v : α) (h : alookup l key = none) : alookup (l ++ [(key, v)]) key = some v := by
  rw [alookup_append]
  simp [h, alookup]

lemma dumpDiffStep_keyVals_ne (my req : List (String × Value)) (pub : Publication)
    (key k : String) (h : k ≠ key) :
    alookup (dumpDiffStep my req pub key).keyVals k = alookup pub.keyVals k := by
  unfold dumpDiffStep
  cases hmy : alookup my key with
  | none => rfl
  | some mv =>
      cases hreq : alookup req key with
      | none => simp [alookup_append_single_ne _ _ _ _ h]
      | some rv =>
          simp only []
          split_ifs <;> simp [alookup_append_single_ne _ _ _ _ h]

lemma dumpDiffStep_tobe_ne (my req : List (String × Value)) (pub : Publication)
    (key k : String) (h : k ≠ key) :
    (k ∈ (dumpDiffStep my req pub key).tobeUpdatedKeys.getD [] ↔
      k ∈ pub.tobeUpdatedKeys.getD []) := by
  unfold dumpDiffStep
  cases hmy : alookup my key with
  | none => simp [h]
  | some mv =>
      cases hreq : alookup req key with
      | none => simp
      | some rv =>
          simp only []
          split_ifs <;> simp [h]

lemma dumpDiffStep_keyVals_self (my req : List (String × Value)) (pub : Publication)
    (key : String) (h : alookup pub.keyVals key = none) :
    alookup (dumpDiffStep my req pub key).keyVals key = claimC2KeyVals my req key := by
  unfold dumpDiffStep claimC2KeyVals
  cases hmy : alookup my key with
  | none => exact h
  | some mv =>
      cases hreq : alookup req key with
      | none => simp [alookup_append_single_self _ _ _ h]
      | some rv =>
          simp only []
          split_ifs with h1 h2 <;>
            simp_all [alookup_append_single_self _ _ _ h]

lemma dumpDiffStep_tobe_self (my req : List (String × Value)) (pub : Publication)
    (key : String) :
    (key ∈ (dumpDiffStep my req pub key).tobeUpdatedKeys.getD [] ↔
      claimC2TobeCond my req key ∨ key ∈ pub.tobeUpdatedKeys.getD []) := by
  unfold dumpDiffStep claimC2TobeCond
  cases hmy : alookup my key with
  | none => simp [Or.comm]
  | some mv =>
      cases hreq : alookup req key with
      | none => simp [hmy, hreq]
      | some rv =>
          simp only []
          split_ifs with h1 h2 <;> simp_all [Or.comm]

lemma dumpDiff_foldl (my req : List (String × Value)) (keys : List String)
    (pub : Publication) (k : String) (hnd : keys.Nodup)
    (hkv : ∀ k', k' ∈ keys → alookup pub.keyVals k' = none) :
    (alookup ((keys.foldl (dumpDiffStep my req) pub)).keyVals k =
      (if k ∈ keys then claimC2KeyVals my req k else alookup pub.keyVals k)) ∧
    (k ∈ ((keys.foldl (dumpDiffStep my req) pub)).tobeUpdatedKeys.getD [] ↔
      ((k ∈ keys ∧ claimC2TobeCond my req k) ∨ k ∈ pub.tobeUpdatedKeys.getD [])) := by
  induction keys generalizing pub with
  | nil => simp
  | cons hd tl ih =>
      simp only [List.nodup_cons] at hnd
      simp only [List.foldl_cons]
      have hkv' : ∀ k', k' ∈ tl → alookup (dumpDiffStep my req pub hd).keyVals k' = none := by
        intro k' hk'
        have hne : k' ≠ hd := fun hc => hnd.1 (hc ▸ hk')
        rw [dumpDiffStep_keyVals_ne my req pub hd k' hne]
        exact hkv k' (List.mem_cons_of_mem _ hk')
      obtain ⟨ihkv, ihtb⟩ := ih (dumpDiffStep my req pub hd) hnd.2 hkv'
      by_cases hk : k = hd
      · subst hk
        have hkt : k ∉ tl := hnd.1
        constructor
        · rw [ihkv, if_neg hkt, if_pos (List.mem_cons_self k tl)]
          exact dumpDiffStep_keyVals_self my req pub k (hkv k (List.mem_cons_self k tl))
        · rw [ihtb, dumpDiffStep_tobe_self]
          constructor
          · rintro (⟨hmem, _⟩ | h | h)
            · exact absurd hmem hkt
            · exact Or.inl ⟨List.mem_cons_self k tl, h⟩
            · exact Or.inr h
          · rintro (⟨_, hcond⟩ | h)
            · exact Or.inr (Or.inl hcond)
            · exact Or.inr (Or.inr h)
      · constructor
        · rw [ihkv, dumpDiffStep_keyVals_ne my req pub hd k hk]
          by_cases hmem : k ∈ tl
          · simp [hmem]
          · simp [hmem, hk]
        · rw [ihtb, dumpDiffStep_tobe_ne my req pub hd k hk]
          constructor
          · rintro (⟨hmem, hcond⟩ | h)
            · exact Or.inl ⟨List.mem_cons_of_mem _ hmem, hcond⟩
            · exact Or.inr h
          · rintro (⟨hmem, hcond⟩ | h)
            · rcases List.mem_cons.mp hmem with hc | hc
              · exact absurd hc hk
              · exact Or.inl ⟨hc, hcond⟩
            · exact Or.inr h

/-- **C2** — `dumpDifference` returns in `keyVals` exactly the keys absent
from the request digest or whose responder record is strictly better or
incomparable under `compareValues` (with the responder's record as entry),
and lists in `tobe_updated_keys` exactly the keys (of either map) absent
from the responder's dump or whose request record is strictly better or
incomparable; keys whose records compare equal appear in neither. -/
theorem dumpDifference_characterization (my req : List (String × Value)) (k : String) :
    alookup (dumpDifference my req).keyVals k = claimC2KeyVals my req k ∧
    (k ∈ (dumpDifference my req).tobeUpdatedKeys.getD [] ↔
      ((k ∈ my.map Prod.fst ∨ k ∈ req.map Prod.fst) ∧ claimC2TobeCond my req k)) := by
  unfold dumpDifference
  have hnd : ((my.map Prod.fst ++ req.map Prod.fst).dedup).Nodup := List.nodup_dedup _
  have hbase : ∀ k', k' ∈ (my.map Prod.fst ++ req.map Prod.fst).dedup →
      alookup (Publication.mk [] [] none none (some [])).keyVals k' = none := by
    intro k' _
    rfl
  obtain ⟨hkv, htb⟩ := dumpDiff_foldl my req _ _ k hnd hbase
  have hmem : k ∈ (my.map Prod.fst ++ req.map Prod.fst).dedup ↔
      (k ∈ my.map Prod.fst ∨ k ∈ req.map Prod.fst) := by
    rw [List.mem_dedup, List.mem_append]
  constructor
  · rw [hkv]
    by_cases hin : k ∈ (my.map Prod.fst ++ req.map Prod.fst).dedup
    · simp [hin]
    · rw [if_neg hin]
      have : alookup my k = none := by
        cases h : alookup my k with
        | none => rfl
        | some mv =>
            exact absurd (hmem.mp ·) (fun _ => hin (hmem.mpr (Or.inl
              (alookup_mem_of_isSome my k (by simp [h])))))
      simp [claimC2KeyVals, this]
      rfl
  · rw [htb]
    simp only [hmem]
    constructor
    · rintro (⟨hm, hc⟩ | h)
      · exact ⟨hm, hc⟩
      · simp at h
    · rintro ⟨hm, hc⟩
      exact Or.inl ⟨hm, hc⟩

/-! ### C3 — loop suppression in mergePublication -/

/-- **C3 counterexample** — a received publication whose `node_ids` trail
contains this node but whose `keyVals` map is empty (and which solicits no
full-sync finalization) is dropped by the *empty-publication* early return
(KvStore.cpp lines 1624-1626), which runs *before* the loop check: the
`looped_publications` counter is **not** incremented, refuting "the
looped_publications counter is incremented by exactly 1". -/
theorem looped_publication_counterexample :
    ("n1" ∈ (some ["n1"] : Option (List String)).getD []) ∧
    (mergePublication { nodeId := "n1" } 0
      { keyVals := [], nodeIds := some ["n1"] } none).1.loopedPublications =
      ({ nodeId := "n1" } : KvState).loopedPublications := by decide

/-- **C3 (amended)** — for every received publication whose `node_ids`
trail contains this node's id, `mergePublication` performs no state
change: the store, the TTL countdown queue, the flooded-publication ledger
and the full-sync finalization ledger are untouched and the returned
update count is 0.  The `looped_publications` counter is incremented by
exactly 1 **when the publication carries a non-empty `keyVals` map or
solicits full-sync finalization**; a publication that is empty in both
respects is swallowed by the earlier empty-publication return and not
counted as looped. -/
theorem looped_publication_dropped (st : KvState) (now : Int) (pub : Publication)
    (senderId : Option String) (hloop : st.nodeId ∈ pub.nodeIds.getD []) :
    (mergePublication st now pub senderId).1.kvStore = st.kvStore ∧
    (mergePublication st now pub senderId).1.ttlCountdownQueue = st.ttlCountdownQueue ∧
    (mergePublication st now pub senderId).1.floodedPublications = st.floodedPublications ∧
    (mergePublication st now pub senderId).1.finalizeFullSyncCalls = st.finalizeFullSyncCalls ∧
    (mergePublication st now pub senderId).2 = 0 ∧
    (mergePublication st now pub senderId).1.loopedPublications =
      st.loopedPublications +
        (if pub.keyVals.isEmpty ∧ ¬(senderId.isSome ∧ pub.tobeUpdatedKeys.isSome ∧
            pub.tobeUpdatedKeys.getD [] ≠ []) then 0 else 1) := by
  have hsome : pub.nodeIds.isSome := by
    cases h : pub.nodeIds with
    | none => rw [h] at hloop; simp at hloop
    | some ids => rfl
  by_cases hempty : pub.keyVals.isEmpty ∧ ¬(senderId.isSome ∧ pub.tobeUpdatedKeys.isSome ∧
      pub.tobeUpdatedKeys.getD [] ≠ [])
  · simp [mergePublication, hempty]
  · simp only [mergePublication]
    rw [if_neg hempty,
      if_pos (show pub.nodeIds.isSome ∧ st.nodeId ∈ pub.nodeIds.getD [] from ⟨hsome, hloop⟩)]
    have hcond : ¬(pub.keyVals = [] ∧ (senderId.isSome = true →
        pub.tobeUpdatedKeys.isSome = true → pub.tobeUpdatedKeys.getD [] = [])) := by
      rintro ⟨h1, h2⟩
      exact hempty ⟨by simp [h1], fun hf => hf.2.2 (h2 hf.1 hf.2.1)⟩
    simp [hcond]

/-- Witness for the amended C3: a looping publication with one key-value
is dropped and counted. -/
theorem looped_publication_dropped_witness :
    (mergePublication { nodeId := "n1" } 0
      { keyVals := [("k", ⟨1, "a", some "x", 5000, 1, none⟩)],
        nodeIds := some ["n0", "n1"] } none).1.kvStore =
        ({ nodeId := "n1" } : KvState).kvStore ∧
    (mergePublication { nodeId := "n1" } 0
      { keyVals := [("k", ⟨1, "a", some "x", 5000, 1, none⟩)],
        nodeIds := some ["n0", "n1"] } none).1.ttlCountdownQueue =
        ({ nodeId := "n1" } : KvState).ttlCountdownQueue ∧
    (mergePublication { nodeId := "n1" } 0
      { keyVals := [("k", ⟨1, "a", some "x", 5000, 1, none⟩)],
        nodeIds := some ["n0", "n1"] } none).1.floodedPublications =
        ({ nodeId := "n1" } : KvState).floodedPublications ∧
    (mergePublication { nodeId := "n1" } 0
      { keyVals := [("k", ⟨1, "a", some "x", 5000, 1, none⟩)],
        nodeIds := some ["n0", "n1"] } none).1.finalizeFullSyncCalls =
        ({ nodeId := "n1" } : KvState).finalizeFullSyncCalls ∧
    (mergePublication { nodeId := "n1" } 0
      { keyVals := [("k", ⟨1, "a", some "x", 5000, 1, none⟩)],
        nodeIds := some ["n0", "n1"] } none).2 = 0 ∧
    (mergePublication { nodeId := "n1" } 0
      { keyVals := [("k", ⟨1, "a", some "x", 5000, 1, none⟩)],
        nodeIds := some ["n0", "n1"] } none).1.loopedPublications =
      ({ nodeId := "n1" } : KvState).loopedPublications +
        (if ([("k", (⟨1, "a", some "x", 5000, 1, none⟩ : Value))] : List (String × Value)).isEmpty ∧
            ¬((none : Option String).isSome ∧
              (none : Option (List String)).isSome ∧
              (none : Option (List String)).getD [] ≠ []) then 0 else 1) :=
  looped_publication_dropped _ 0 _ none (by decide)

/-! ### C4 — TTL decrement when building a publication for the wire -/

lemma mem_ainsert_keys {α : Type} (l : List (String × α)) (k k' : String) (v : α) :
    k' ∈ (ainsert l k v).map Prod.fst ↔ (k' = k ∨ k' ∈ l.map Prod.fst) := by
  induction l with
  | nil => simp [ainsert]
  | cons hd tl ih =>
      obtain ⟨k1, v1⟩ := hd
      by_cases h : k1 = k
      · subst h
        simp [ainsert]
      · have he : ainsert ((k1, v1) :: tl) k v = (k1, v1) :: ainsert tl k v := by
          simp [ainsert, h]
        rw [he]
        simp only [List.map_cons, List.mem_cons, ih]
        tauto

lemma ainsert_keys_nodup {α : Type} (l : List (String × α)) (k : String) (v : α)
    (h : (l.map Prod.fst).Nodup) : ((ainsert l k v).map Prod.fst).Nodup := by
  induction l with
  | nil => simp [ainsert]
  | cons hd tl ih =>
      obtain ⟨k1, v1⟩ := hd
      simp only [List.map_cons, List.nodup_cons] at h
      by_cases hh : k1 = k
      · subst hh
        have he : ainsert ((k1, v1) :: tl) k1 v = (k1, v) :: tl := by simp [ainsert]
        rw [he]
        simp only [List.map_cons, List.nodup_cons]
        exact ⟨h.1, h.2⟩
      · have he : ainsert ((k1, v1) :: tl) k v = (k1, v1) :: ainsert tl k v := by
          simp [ainsert, hh]
        rw [he]
        simp only [List.map_cons, List.nodup_cons]
        refine ⟨?_, ih h.2⟩
        rw [mem_ainsert_keys]
        rintro (hc | hc)
        · exact hh hc
        · exact h.1 hc

lemma aerase_sublist {α : Type} (l : List (String × α)) (k : String) :
    (aerase l k).Sublist l := by
  induction l with
  | nil => simp [aerase]
  | cons hd tl ih =>
      obtain ⟨k1, v1⟩ := hd
      by_cases h : k1 = k
      · have he : aerase ((k1, v1) :: tl) k = tl := by simp [aerase, h]
        rw [he]
        exact List.sublist_cons_self (k1, v1) tl
      · have he : aerase ((k1, v1) :: tl) k = (k1, v1) :: aerase tl k := by
          simp [aerase, h]
        rw [he]
        exact ih.cons₂ (k1, v1)

lemma aerase_keys_nodup {α : Type} (l : List (String × α)) (k : String)
    (h : (l.map Prod.fst).Nodup) : ((aerase l k).map Prod.fst).Nodup :=
  h.sublist ((aerase_sublist l k).map Prod.fst)

lemma updatePubTtlStep_lookup_ne (ttlDecr now : Int) (rm : Bool) (pub : Publication)
    (qE : TtlCountdownQueueEntry) (k : String) (h : qE.key ≠ k) :
    alookup (updatePubTtlStep ttlDecr now rm pub qE).keyVals k = alookup pub.keyVals k := by
  unfold updatePubTtlStep
  cases hv : alookup pub.keyVals qE.key with
  | none => rfl
  | some v =>
      simp only []
      split_ifs <;>
        simp [alookup_aerase_ne _ _ _ (Ne.symm h), alookup_ainsert_ne _ _ _ _ (Ne.symm h)]

lemma updatePubTtlStep_keys_nodup (ttlDecr now : Int) (rm : Bool) (pub : Publication)
    (qE : TtlCountdownQueueEntry) (h : (pub.keyVals.map Prod.fst).Nodup) :
    ((updatePubTtlStep ttlDecr now rm pub qE).keyVals.map Prod.fst).Nodup := by
  unfold updatePubTtlStep
  cases hv : alookup pub.keyVals qE.key with
  | none => exact h
  | some v =>
      simp only []
      split_ifs <;> simp [aerase_keys_nodup _ _ h, ainsert_keys_nodup _ _ _ h, h]

lemma updatePubTtl_preserve (queue : List TtlCountdownQueueEntry) (ttlDecr now : Int)
    (pub : Publication) (rm : Bool) (k : String) (h : ∀ e ∈ queue, e.key ≠ k) :
    alookup (updatePublicationTtl queue ttlDecr now pub rm).keyVals k =
      alookup pub.keyVals k := by
  induction queue generalizing pub with
  | nil => rfl
  | cons e rest ih =>
      unfold updatePublicationTtl at *
      simp only [List.foldl_cons]
      rw [ih (updatePubTtlStep ttlDecr now rm pub e) (fun e' he' => h e' (List.mem_cons_of_mem _ he')),
        updatePubTtlStep_lookup_ne _ _ _ _ _ _ (h e (List.mem_cons_self e rest))]

/-- **C4** — when building a publication for the wire, for every key
backed by a TTL-countdown entry matching the publication's record (same
version, originator, ttl_version): (i) when the remaining time
`entry.expiry − now` is ≤ `ttl_decrement` the key is dropped from the
publication; (ii) otherwise (with `removeAboutToExpire = false`, the
plain forwarding path) the outgoing record's TTL is set to
`entry.expiry − now − ttl_decrement` with all other fields unchanged;
(iii) in every case, a key that survives carries exactly that decremented
TTL.  Hypotheses: the countdown queue holds at most one entry per key and
the publication's key-value map is duplicate-free. -/
theorem updatePublicationTtl_matches_claim (queue : List TtlCountdownQueueEntry)
    (ttlDecr now : Int) (pub : Publication) (rm : Bool)
    (hqnd : (queue.map TtlCountdownQueueEntry.key).Nodup)
    (hpnd : (pub.keyVals.map Prod.fst).Nodup)
    (qE : TtlCountdownQueueEntry) (hq : qE ∈ queue) (v : Value)
    (hv : alookup pub.keyVals qE.key = some v)
    (hmatch : v.version = qE.version ∧ v.originatorId = qE.originatorId ∧
      v.ttlVersion = qE.ttlVersion) :
    (qE.expiryTime - now ≤ ttlDecr →
      alookup (updatePublicationTtl queue ttlDecr now pub rm).keyVals qE.key = none) ∧
    (rm = false → ttlDecr < qE.expiryTime - now →
      alookup (updatePublicationTtl queue ttlDecr now pub rm).keyVals qE.key =
        some { v with ttl := qE.expiryTime - now - ttlDecr }) ∧
    (∀ r, alookup (updatePublicationTtl queue ttlDecr now pub rm).keyVals qE.key = some r →
      r = { v with ttl := qE.expiryTime - now - ttlDecr }) := by
  induction queue generalizing pub with
  | nil => cases hq
  | cons e rest ih =>
      simp only [List.map_cons, List.nodup_cons] at hqnd
      rcases List.mem_cons.mp hq with he | he
      · -- the matching entry is at the head
        subst he
        unfold updatePublicationTtl
        simp only [List.foldl_cons]
        have hrest : ∀ e' ∈ rest, e'.key ≠ qE.key := by
          intro e' he' hc
          exact hqnd.1 (hc ▸ List.mem_map_of_mem TtlCountdownQueueEntry.key he')
        rw [show List.foldl (updatePubTtlStep ttlDecr now rm)
              (updatePubTtlStep ttlDecr now rm pub qE) rest =
            updatePublicationTtl rest ttlDecr now (updatePubTtlStep ttlDecr now rm pub qE) rm
          from rfl]
        rw [updatePubTtl_preserve rest ttlDecr now _ rm qE.key hrest]
        unfold updatePubTtlStep
        rw [hv]
        simp only [hmatch.1, hmatch.2.1, hmatch.2.2, ne_eq, not_true_eq_false, false_or,
          or_self, if_false]
        by_cases h1 : qE.expiryTime - now ≤ ttlDecr
        · rw [if_pos h1]
          refine ⟨fun _ => ?_, fun _ h2 => absurd h1 (not_le.mpr h2), fun r hr => ?_⟩
          · exact alookup_aerase_self _ _ hpnd
          · rw [alookup_aerase_self _ _ hpnd] at hr
            cases hr
        · rw [if_neg h1]
          by_cases h2 : rm && decide (qE.expiryTime - now < kTtlThreshold)
          · rw [if_pos h2]
            refine ⟨fun hc => absurd hc h1, fun hrm _ => ?_, fun r hr => ?_⟩
            · rw [hrm] at h2; simp at h2
            · rw [alookup_aerase_self _ _ hpnd] at hr
              cases hr
          · rw [if_neg h2]
            refine ⟨fun hc => absurd hc h1, fun _ _ => ?_, fun r hr => ?_⟩
            · exact alookup_ainsert_self _ _ _
            · rw [alookup_ainsert_self] at hr
              exact (Option.some_inj.mp hr).symm
      · -- the matching entry is in the tail
        have hne : e.key ≠ qE.key := by
          intro hc
          exact hqnd.1 (hc ▸ List.mem_map_of_mem TtlCountdownQueueEntry.key he)
        unfold updatePublicationTtl
        simp only [List.foldl_cons]
        have hv' : alookup (updatePubTtlStep ttlDecr now rm pub e).keyVals qE.key = some v := by
          rw [updatePubTtlStep_lookup_ne _ _ _ _ _ _ hne]
          exact hv
        exact ih (updatePubTtlStep ttlDecr now rm pub e) hqnd.2
          (updatePubTtlStep_keys_nodup _ _ _ _ _ hpnd) he hv'

/-- Witness for C4: a queue with one matching entry, applied to a
one-record publication surviving the decrement. -/
theorem updatePublicationTtl_matches_claim_witness :
    ((⟨900, "k", 1, 1, "a"⟩ : TtlCountdownQueueEntry).expiryTime - 0 ≤ 1 →
      alookup (updatePublicationTtl [⟨900, "k", 1, 1, "a"⟩] 1 0
        { keyVals := [("k", ⟨1, "a", some "x", 5000, 1, none⟩)] } false).keyVals "k" = none) ∧
    (false = false → 1 < (⟨900, "k", 1, 1, "a"⟩ : TtlCountdownQueueEntry).expiryTime - 0 →
      alookup (updatePublicationTtl [⟨900, "k", 1, 1, "a"⟩] 1 0
        { keyVals := [("k", ⟨1, "a", some "x", 5000, 1, none⟩)] } false).keyVals "k" =
        some { (⟨1, "a", some "x", 5000, 1, none⟩ : Value) with ttl := 900 - 0 - 1 }) ∧
    (∀ r, alookup (updatePublicationTtl [⟨900, "k", 1, 1, "a"⟩] 1 0
        { keyVals := [("k", ⟨1, "a", some "x", 5000, 1, none⟩)] } false).keyVals "k" = some r →
      r = { (⟨1, "a", some "x", 5000, 1, none⟩ : Value) with ttl := 900 - 0 - 1 }) :=
  updatePublicationTtl_matches_claim _ 1 0 _ false (by decide) (by decide) _
    (by decide) _ (by decide) (by decide)

/-! ### C8 — TTL countdown queue cleanup -/

/-- Whether a countdown entry still matches the current record of its key
("authoritative" entries, KvStore.cpp lines 1358-1360). -/
def entryMatches (store : List (String × Value)) (e : TtlCountdownQueueEntry) : Prop :=
  ∃ v, alookup store e.key = some v ∧ v.version = e.version ∧
    v.originatorId = e.originatorId ∧ v.ttlVersion = e.ttlVersion

/-- The full characterization of the pop loop on a min-heap-ordered queue
with at most one entry per key and a duplicate-free store:
(a) the remaining queue is exactly the entries expiring in the future;
(b) a key is recorded as expired iff some popped (expired) entry for it
matches the current record;
(c) the store loses exactly the expired keys. -/
lemma cleanupLoop_spec (store : List (String × Value))
    (queue : List TtlCountdownQueueEntry) (now : Int)
    (hsort : queue.Pairwise (fun a b => a.expiryTime ≤ b.expiryTime))
    (hqnd : (queue.map TtlCountdownQueueEntry.key).Nodup)
    (hsnd : (store.map Prod.fst).Nodup) :
    ((cleanupLoop store queue now).2.1 =
      queue.filter (fun e => decide (now < e.expiryTime))) ∧
    (∀ k, k ∈ (cleanupLoop store queue now).2.2 ↔
      ∃ e, e ∈ queue ∧ e.expiryTime ≤ now ∧ e.key = k ∧ entryMatches store e) ∧
    (∀ k, alookup (cleanupLoop store queue now).1 k =
      if k ∈ (cleanupLoop store queue now).2.2 then none else alookup store k) := by
  induction queue generalizing store with
  | nil =>
      refine ⟨rfl, fun k => ?_, fun k => ?_⟩ <;> simp [cleanupLoop]
  | cons top rest ih =>
      rw [List.pairwise_cons] at hsort
      simp only [List.map_cons, List.nodup_cons] at hqnd
      by_cases hexp : top.expiryTime > now
      · -- nothing in the queue worth evicting: the head is in the future,
        -- and by the heap order so is everything below it
        have hrest : ∀ e ∈ rest, now < e.expiryTime :=
          fun e he => lt_of_lt_of_le hexp (hsort.1 e he)
        have hloop : cleanupLoop store (top :: rest) now = (store, top :: rest, []) := by
          simp only [cleanupLoop]
          rw [if_pos hexp]
        refine ⟨?_, fun k => ?_, fun k => ?_⟩
        · rw [hloop]
          have : ∀ e ∈ top :: rest, decide (now < e.expiryTime) = true := by
            intro e he
            rcases List.mem_cons.mp he with he | he
            · subst he; simpa using hexp
            · simpa using hrest e he
          exact (List.filter_eq_self.mpr this).symm
        · rw [hloop]
          simp only [List.not_mem_nil, false_iff]
          rintro ⟨e, hmem, hle, -, -⟩
          rcases List.mem_cons.mp hmem with he | he
          · subst he; omega
          · exact absurd hle (not_le.mpr (hrest e he))
        · rw [hloop]
          simp
      · push_neg at hexp
        by_cases hfound : entryMatches store top
        · -- the head entry has expired and still matches: the key is removed
          obtain ⟨v, hv, hm1, hm2, hm3⟩ := hfound
          have hloop : cleanupLoop store (top :: rest) now =
              ((cleanupLoop (aerase store top.key) rest now).1,
               (cleanupLoop (aerase store top.key) rest now).2.1,
               top.key :: (cleanupLoop (aerase store top.key) rest now).2.2) := by
            simp only [cleanupLoop]
            rw [if_neg (not_lt.mpr hexp), hv]
            simp [hm1, hm2, hm3]
          have hkeyrest : ∀ e ∈ rest, e.key ≠ top.key := by
            intro e he hc
            exact hqnd.1 (hc ▸ List.mem_map_of_mem TtlCountdownQueueEntry.key he)
          obtain ⟨iha, ihb, ihc⟩ := ih (aerase store top.key)
            (List.Pairwise.sublist (List.sublist_cons_self top rest) (List.pairwise_cons.mpr hsort))
            hqnd.2 (aerase_keys_nodup _ _ hsnd)
          have hexpired_sub : ∀ k, k ∈ (cleanupLoop (aerase store top.key) rest now).2.2 →
              k ≠ top.key := by
            intro k hk hc
            obtain ⟨e, he, -, hkey, -⟩ := (ihb k).mp hk
            exact hkeyrest e he (hkey.trans hc)
          refine ⟨?_, fun k => ?_, fun k => ?_⟩
          · rw [hloop]
            have : decide (now < top.expiryTime) = false := by simpa using hexp
            rw [List.filter_cons_of_neg (by simp [this]), iha]
          · rw [hloop]
            constructor
            · intro hc
              rcases List.mem_cons.mp hc with hc | hc
              · exact ⟨top, List.mem_cons_self _ _, hexp, hc.symm, v, hv, hm1, hm2, hm3⟩
              · obtain ⟨e, he, hle, hkey, v', hv', h1, h2, h3⟩ := (ihb k).mp hc
                refine ⟨e, List.mem_cons_of_mem _ he, hle, hkey, v', ?_, h1, h2, h3⟩
                rwa [alookup_aerase_ne _ _ _ (hkey ▸ hkeyrest e he)] at hv'
            · rintro ⟨e, he, hle, hkey, v', hv', h1, h2, h3⟩
              rcases List.mem_cons.mp he with he | he
              · subst he
                exact List.mem_cons.mpr (Or.inl hkey.symm)
              · refine List.mem_cons.mpr
                  (Or.inr ((ihb k).mpr ⟨e, he, hle, hkey, v', ?_, h1, h2, h3⟩))
                rwa [alookup_aerase_ne _ _ _ (hkey ▸ hkeyrest e he)]
          · rw [hloop]
            by_cases hk : k = top.key
            · subst hk
              rw [ihc top.key, if_neg (fun hc => hexpired_sub top.key hc rfl),
                alookup_aerase_self _ _ hsnd, if_pos (List.mem_cons_self _ _)]
            · rw [ihc k, alookup_aerase_ne _ _ _ hk]
              by_cases hmem : k ∈ (cleanupLoop (aerase store top.key) rest now).2.2
              · rw [if_pos hmem, if_pos (List.mem_cons.mpr (Or.inr hmem))]
              · rw [if_neg hmem, if_neg (fun hc => by
                  rcases List.mem_cons.mp hc with hc | hc
                  · exact hk hc
                  · exact hmem hc)]
        · -- the head entry has expired but is stale: popped with no effect
          have hloop : cleanupLoop store (top :: rest) now = cleanupLoop store rest now := by
            simp only [cleanupLoop]
            rw [if_neg (not_lt.mpr hexp)]
            cases hv : alookup store top.key with
            | none => rfl
            | some v =>
                have hc : ¬(v.version = top.version ∧ v.originatorId = top.originatorId ∧
                    v.ttlVersion = top.ttlVersion) := fun hc => hfound ⟨v, hv, hc⟩
                simp [hc]
          obtain ⟨iha, ihb, ihc⟩ := ih store
            (List.Pairwise.sublist (List.sublist_cons_self top rest) (List.pairwise_cons.mpr hsort))
            hqnd.2 hsnd
          refine ⟨?_, fun k => ?_, fun k => ?_⟩
          · rw [hloop, iha]
            have : decide (now < top.expiryTime) = false := by simpa using hexp
            rw [List.filter_cons_of_neg (by simp [this])]
          · rw [hloop, ihb k]
            constructor
            · rintro ⟨e, he, hle, hkey, hm⟩
              exact ⟨e, List.mem_cons_of_mem _ he, hle, hkey, hm⟩
            · rintro ⟨e, he, hle, hkey, hm⟩
              rcases List.mem_cons.mp he with he | he
              · subst he
                exact absurd hm hfound
              · exact ⟨e, he, hle, hkey, hm⟩
          · rw [hloop]
            exact ihc k

/-- **C8** — when the TTL countdown timer fires: every queue entry with
`expiry ≤ now` is popped (the remaining queue is exactly the future
entries); a popped entry removes its key from the store iff its
(version, originator, ttl_version) still matches the key's current record,
stale entries having no effect; and all keys removed in one firing are
emitted together as one expired-keys publication (none when no key
expired).  Hypotheses: the queue is ordered by expiry (the heap
invariant), holds at most one entry per key, and the store is
duplicate-free. -/
theorem cleanupTtlCountdownQueue_matches_claim (store : List (String × Value))
    (queue : List TtlCountdownQueueEntry) (now : Int)
    (hsort : queue.Pairwise (fun a b => a.expiryTime ≤ b.expiryTime))
    (hqnd : (queue.map TtlCountdownQueueEntry.key).Nodup)
    (hsnd : (store.map Prod.fst).Nodup) :
    ((cleanupTtlCountdownQueue store queue now).2.1 =
      queue.filter (fun e => decide (now < e.expiryTime))) ∧
    (∀ k, k ∈ (cleanupLoop store queue now).2.2 ↔
      ∃ e, e ∈ queue ∧ e.expiryTime ≤ now ∧ e.key = k ∧ entryMatches store e) ∧
    (∀ k, alookup (cleanupTtlCountdownQueue store queue now).1 k =
      if k ∈ (cleanupLoop store queue now).2.2 then none else alookup store k) ∧
    ((cleanupTtlCountdownQueue store queue now).2.2 =
      if (cleanupLoop store queue now).2.2.isEmpty then none
      else some { expiredKeys := (cleanupLoop store queue now).2.2 }) := by
  obtain ⟨ha, hb, hc⟩ := cleanupLoop_spec store queue now hsort hqnd hsnd
  have hdef : cleanupTtlCountdownQueue store queue now =
      (if (cleanupLoop store queue now).2.2.isEmpty then
        ((cleanupLoop store queue now).1, (cleanupLoop store queue now).2.1, none)
      else ((cleanupLoop store queue now).1, (cleanupLoop store queue now).2.1,
        some { expiredKeys := (cleanupLoop store queue now).2.2 })) := rfl
  rw [hdef]
  by_cases he : (cleanupLoop store queue now).2.2.isEmpty
  · rw [if_pos he]
    exact ⟨ha, hb, hc, (if_pos he).symm⟩
  · rw [if_neg he]
    exact ⟨ha, hb, hc, (if_neg he).symm⟩

/-- Witness for C8: one expired matching entry and one future entry; the
expired key is removed and published, the future entry remains queued. -/
theorem cleanupTtlCountdownQueue_matches_claim_witness :
    ((cleanupTtlCountdownQueue [("k", ⟨1, "a", some "x", 50, 1, none⟩)]
        [⟨50, "k", 1, 1, "a"⟩, ⟨900, "j", 1, 1, "a"⟩] 100).2.1 =
      ([⟨50, "k", 1, 1, "a"⟩, ⟨900, "j", 1, 1, "a"⟩] :
        List TtlCountdownQueueEntry).filter (fun e => decide ((100:Int) < e.expiryTime))) ∧
    (∀ k, k ∈ (cleanupLoop [("k", ⟨1, "a", some "x", 50, 1, none⟩)]
        [⟨50, "k", 1, 1, "a"⟩, ⟨900, "j", 1, 1, "a"⟩] 100).2.2 ↔
      ∃ e, e ∈ ([⟨50, "k", 1, 1, "a"⟩, ⟨900, "j", 1, 1, "a"⟩] :
          List TtlCountdownQueueEntry) ∧ e.expiryTime ≤ 100 ∧ e.key = k ∧
        entryMatches [("k", ⟨1, "a", some "x", 50, 1, none⟩)] e) ∧
    (∀ k, alookup (cleanupTtlCountdownQueue [("k", ⟨1, "a", some "x", 50, 1, none⟩)]
        [⟨50, "k", 1, 1, "a"⟩, ⟨900, "j", 1, 1, "a"⟩] 100).1 k =
      if k ∈ (cleanupLoop [("k", ⟨1, "a", some "x", 50, 1, none⟩)]
          [⟨50, "k", 1, 1, "a"⟩, ⟨900, "j", 1, 1, "a"⟩] 100).2.2 then none
      else alookup [("k", ⟨1, "a", some "x", 50, 1, none⟩)] k) ∧
    ((cleanupTtlCountdownQueue [("k", ⟨1, "a", some "x", 50, 1, none⟩)]
        [⟨50, "k", 1, 1, "a"⟩, ⟨900, "j", 1, 1, "a"⟩] 100).2.2 =
      if (cleanupLoop [("k", ⟨1, "a", some "x", 50, 1, none⟩)]
          [⟨50, "k", 1, 1, "a"⟩, ⟨900, "j", 1, 1, "a"⟩] 100).2.2.isEmpty then none
      else some { expiredKeys := (cleanupLoop [("k", ⟨1, "a", some "x", 50, 1, none⟩)]
          [⟨50, "k", 1, 1, "a"⟩, ⟨900, "j", 1, 1, "a"⟩] 100).2.2 }) :=
  cleanupTtlCountdownQueue_matches_claim _ _ 100 (by decide) (by decide) (by decide)

/-! ### C9 — malformed requests -/

/-- A malformed request in the claim's sense: the command's required
parameter record is missing, or its required list (keyVals for KEY_SET,
peers for PEER_ADD, peerNames for PEER_DEL, messages for DUAL) is empty. -/
def malformedRequest (req : KvStoreRequest) : Prop :=
  (req.cmd = .keySet ∧ (req.keySetParams = none ∨
    (∃ p, req.keySetParams = some p ∧ p.keyVals = []))) ∨
  (req.cmd = .keyGet ∧ req.keyGetParams = none) ∨
  (req.cmd = .keyDump ∧ req.keyDumpParams = none) ∨
  (req.cmd = .hashDump ∧ req.keyDumpParams = none) ∨
  (req.cmd = .peerAdd ∧ (req.peerAddParams = none ∨ req.peerAddParams = some [])) ∨
  (req.cmd = .peerDel ∧ (req.peerDelParams = none ∨ req.peerDelParams = some [])) ∨
  (req.cmd = .dual ∧ (req.dualMessages = none ∨ req.dualMessages = some [])) ∨
  (req.cmd = .floodTopoSet ∧ req.floodTopoSetParams = none)

/-- **C9 counterexample** — a DUAL request with its required `dualMessages`
record missing is *not* answered with an error indication: the dispatcher
replies with a normal empty message ("ignore it", KvStore.cpp lines
1026-1029), refuting "processRequestMsg returns an error indication to the
requester" for every malformed request. -/
theorem malformed_request_counterexample :
    (processRequestMsg { nodeId := "n1" } 0 1 { cmd := Command.dual }).2 =
      Except.ok Reply.emptyMsg ∧
    (processRequestMsg { nodeId := "n1" } 0 1 { cmd := Command.dual }).2 ≠
      Except.error () ∧
    malformedRequest { cmd := Command.dual } := by
  refine ⟨rfl, by simp [processRequestMsg], Or.inr (Or.inr (Or.inr (Or.inr (Or.inr (Or.inr (Or.inl
    ⟨rfl, Or.inl rfl⟩))))))⟩

/-- **C9 (amended)** — for every malformed request the state (in
particular the key-value store) is not mutated; KEY_SET, KEY_GET,
KEY_DUMP, HASH_DUMP, PEER_ADD and PEER_DEL reject with an error
indication, while malformed DUAL and FLOOD_TOPO_SET requests are ignored
with a normal empty reply instead of an error. -/
theorem malformed_request_rejected (st : KvState) (now ttlDecr : Int)
    (req : KvStoreRequest) (h : malformedRequest req) :
    (processRequestMsg st now ttlDecr req).1 = st ∧
    ((req.cmd = .dual ∨ req.cmd = .floodTopoSet) →
      (processRequestMsg st now ttlDecr req).2 = .ok .emptyMsg) ∧
    (¬(req.cmd = .dual ∨ req.cmd = .floodTopoSet) →
      (processRequestMsg st now ttlDecr req).2 = .error ()) := by
  rcases h with ⟨hcmd, hp⟩ | ⟨hcmd, hp⟩ | ⟨hcmd, hp⟩ | ⟨hcmd, hp⟩ | ⟨hcmd, hp⟩ |
    ⟨hcmd, hp⟩ | ⟨hcmd, hp⟩ | ⟨hcmd, hp⟩
  · rcases hp with hp | ⟨p, hp, hkv⟩
    · simp [processRequestMsg, hcmd, hp]
    · simp [processRequestMsg, hcmd, hp, hkv]
  · simp [processRequestMsg, hcmd, hp]
  · simp [processRequestMsg, hcmd, hp]
  · simp [processRequestMsg, hcmd, hp]
  · rcases hp with hp | hp <;> simp [processRequestMsg, hcmd, hp]
  · rcases hp with hp | hp <;> simp [processRequestMsg, hcmd, hp]
  · rcases hp with hp | hp <;> simp [processRequestMsg, hcmd, hp]
  · simp [processRequestMsg, hcmd, hp]

/-- Witness for the amended C9: a PEER_ADD request with an empty peers
map is rejected with an error and leaves the state unchanged. -/
theorem malformed_request_rejected_witness :
    (processRequestMsg { nodeId := "n1" } 0 1
      { cmd := Command.peerAdd, peerAddParams := some [] }).1 =
      ({ nodeId := "n1" } : KvState) ∧
    ((({ cmd := Command.peerAdd, peerAddParams := some [] } : KvStoreRequest).cmd =
        Command.dual ∨
      ({ cmd := Command.peerAdd, peerAddParams := some [] } : KvStoreRequest).cmd =
        Command.floodTopoSet) →
      (processRequestMsg { nodeId := "n1" } 0 1
        { cmd := Command.peerAdd, peerAddParams := some [] }).2 = .ok .emptyMsg) ∧
    (¬(({ cmd := Command.peerAdd, peerAddParams := some [] } : KvStoreRequest).cmd =
        Command.dual ∨
      ({ cmd := Command.peerAdd, peerAddParams := some [] } : KvStoreRequest).cmd =
        Command.floodTopoSet) →
      (processRequestMsg { nodeId := "n1" } 0 1
        { cmd := Command.peerAdd, peerAddParams := some [] }).2 = .error ()) :=
  malformed_request_rejected _ 0 1 _
    (Or.inr (Or.inr (Or.inr (Or.inr (Or.inl ⟨rfl, Or.inr rfl⟩)))))

/-! ### C10 — every stored record has a present value and hash -/

/-- The store invariant: every held record has a present `value` and a
present `hash`. -/
def storeWF (store : List (String × Value)) : Prop :=
  ∀ kv ∈ store, kv.2.value.isSome ∧ kv.2.hash.isSome

instance (store : List (String × Value)) : Decidable (storeWF store) := by
  unfold storeWF; infer_instance

lemma storeWF_lookup {store : List (String × Value)} {k : String} {v : Value}
    (h : storeWF store) (hk : alookup store k = some v) :
    v.value.isSome ∧ v.hash.isSome := by
  induction store with
  | nil => cases hk
  | cons hd tl ih =>
      obtain ⟨k1, v1⟩ := hd
      by_cases hh : k1 = k
      · simp only [alookup, if_pos hh] at hk
        cases hk
        exact h (k1, v) (List.mem_cons_self _ _)
      · simp only [alookup, if_neg hh] at hk
        exact ih (fun kv hkv => h kv (List.mem_cons_of_mem _ hkv)) hk

lemma storeWF_ainsert {store : List (String × Value)} {k : String} {v : Value}
    (h : storeWF store) (hv : v.value.isSome ∧ v.hash.isSome) :
    storeWF (ainsert store k v) := by
  induction store with
  | nil =>
      intro kv hkv
      simp only [ainsert, List.mem_singleton] at hkv
      subst hkv
      exact hv
  | cons hd tl ih =>
      obtain ⟨k1, v1⟩ := hd
      intro kv hkv
      by_cases hh : k1 = k
      · simp only [ainsert, if_pos hh, List.mem_cons] at hkv
        rcases hkv with hkv | hkv
        · subst hkv; exact hv
        · exact h kv (List.mem_cons_of_mem _ hkv)
      · simp only [ainsert, if_neg hh, List.mem_cons] at hkv
        rcases hkv with hkv | hkv
        · subst hkv; exact h (k1, v1) (List.mem_cons_self _ _)
        · exact ih (fun kv hkv => h kv (List.mem_cons_of_mem _ hkv)) kv hkv

lemma storeWF_aerase {store : List (String × Value)} {k : String} (h : storeWF store) :
    storeWF (aerase store k) :=
  fun kv hkv => h kv ((aerase_sublist store k).subset hkv)

/-- The per-key merge only ever installs well-formed records. -/
lemma mergeKey_wf {old : Option Value} {v r : Value}
    (hold : ∀ ov, old = some ov → ov.value.isSome ∧ ov.hash.isSome)
    (hres : mergeKey old v = some r) : r.value.isSome ∧ r.hash.isSome := by
  by_cases httl : v.ttl ≠ kTtlInfinity ∧ v.ttl ≤ 0
  · rw [mergeKey_skip_invalid old v httl] at hres
    cases hres
  · cases old with
    | none =>
        simp only [mergeKey, httl, if_false, if_neg, not_false_iff] at hres
        by_cases h0 : v.version < 0
        · rw [if_pos h0] at hres; cases hres
        · rw [if_neg h0] at hres
          cases hv : v.value with
          | none => rw [hv] at hres; simp at hres
          | some nv =>
              rw [hv] at hres
              simp only [Option.isSome_some, if_true] at hres
              by_cases h1 : (0:Int) < v.version
              · rw [if_pos h1] at hres
                cases hres
                exact ⟨by simp [storedRecord, hv], by simp [storedRecord]⟩
              · rw [if_neg h1] at hres; cases hres
    | some ov =>
        have hov := hold ov rfl
        have httl2 : v.ttl = kTtlInfinity ∨ 0 < v.ttl := by
          rcases not_and_or.mp httl with h | h
          · exact Or.inl (not_not.mp h)
          · exact Or.inr (lt_of_not_le h)
        rw [mergeKey_eq_decision (some ov) v httl2 (fun o ho => by cases ho; exact hov.1)
            (fun hc => by cases hc)] at hres
        simp only [claimC1Decision] at hres
        split_ifs at hres with h1 h2 h3
        · cases hres
          exact ⟨by simpa [storedRecord] using h2.1, by simp [storedRecord]⟩
        · cases hres
          exact ⟨hov.1, hov.2⟩

lemma mergeKeyValuesStep_wf (filters : Option KvStoreFilters)
    (acc : List (String × Value) × List (String × Value)) (kv : String × Value)
    (h : storeWF acc.1) : storeWF (mergeKeyValuesStep filters acc kv).1 := by
  unfold mergeKeyValuesStep
  split_ifs
  · exact h
  · cases hm : mergeKey (alookup acc.1 kv.1) kv.2 with
    | some nv =>
        simp only [hm]
        exact storeWF_ainsert h (mergeKey_wf (fun ov ho => storeWF_lookup h ho) hm)
    | none => simpa [hm] using h

lemma mergeKeyValues_wf (store keyVals : List (String × Value))
    (filters : Option KvStoreFilters) (h : storeWF store) :
    storeWF (mergeKeyValues store keyVals filters).1 := by
  unfold mergeKeyValues
  suffices hgen : ∀ (acc : List (String × Value) × List (String × Value)), storeWF acc.1 →
      storeWF (keyVals.foldl (mergeKeyValuesStep filters) acc).1 from
    hgen (store, []) h
  induction keyVals with
  | nil => exact fun acc ha => ha
  | cons hd tl ih =>
      intro acc ha
      simp only [List.foldl_cons]
      exact ih _ (mergeKeyValuesStep_wf filters acc hd ha)

lemma cleanupLoop_wf (store : List (String × Value))
    (queue : List TtlCountdownQueueEntry) (now : Int) (h : storeWF store) :
    storeWF (cleanupLoop store queue now).1 := by
  induction queue generalizing store with
  | nil => exact h
  | cons top rest ih =>
      simp only [cleanupLoop]
      split_ifs with h1
      · exact h
      · cases hv : alookup store top.key with
        | none => exact ih store h
        | some v =>
            simp only []
            split_ifs with h2
            · exact ih _ (storeWF_aerase h)
            · exact ih store h

lemma mergePublication_wf (st : KvState) (now : Int) (pub : Publication)
    (senderId : Option String) (h : storeWF st.kvStore) :
    storeWF (mergePublication st now pub senderId).1.kvStore := by
  by_cases h1 : pub.keyVals.isEmpty ∧ ¬(senderId.isSome ∧ pub.tobeUpdatedKeys.isSome ∧
      pub.tobeUpdatedKeys.getD [] ≠ [])
  · simpa [mergePublication, h1] using h
  · by_cases h2 : pub.nodeIds.isSome ∧ st.nodeId ∈ pub.nodeIds.getD []
    · simp only [mergePublication]
      rw [if_neg h1, if_pos h2]
      exact h
    · simp only [mergePublication]
      rw [if_neg h1, if_neg h2]
      split_ifs <;>
        simpa [KvState.flood] using mergeKeyValues_wf st.kvStore pub.keyVals st.filters h

/-- **C10** — well-formedness of the store (every held record has a
present `value` and a present `hash`) is preserved by every mutation path:
`mergeKeyValues` (the full-update path only stores present values and
fills a missing hash; the TTL-only path touches only ttl/ttlVersion),
the TTL cleanup (which only erases), `mergePublication`, and the whole
command dispatcher (whose KEY_SET handler recomputes hashes before
merging); consequently `dumpHashWithFilters` (HASH_DUMP) reads a present
hash from every dumped record. -/
theorem store_records_wellformed :
    (∀ store keyVals filters, storeWF store →
      storeWF (mergeKeyValues store keyVals filters).1) ∧
    (∀ store queue now, storeWF store →
      storeWF (cleanupTtlCountdownQueue store queue now).1) ∧
    (∀ st now pub senderId, storeWF st.kvStore →
      storeWF (mergePublication st now pub senderId).1.kvStore) ∧
    (∀ st now ttlDecr req, storeWF st.kvStore →
      storeWF (processRequestMsg st now ttlDecr req).1.kvStore) ∧
    (∀ store f, storeWF store →
      ∀ kv ∈ (dumpHashWithFilters store f).keyVals, kv.2.hash.isSome) := by
  refine ⟨mergeKeyValues_wf, ?_, mergePublication_wf, ?_, ?_⟩
  · intro store queue now h
    have : (cleanupTtlCountdownQueue store queue now).1 = (cleanupLoop store queue now).1 := by
      simp only [cleanupTtlCountdownQueue]
      split_ifs <;> rfl
    rw [this]
    exact cleanupLoop_wf store queue now h
  · intro st now ttlDecr req h
    cases hcmd : req.cmd
    case keySet =>
        cases hp : req.keySetParams with
        | none => simpa [processRequestMsg, hcmd, hp] using h
        | some params =>
            by_cases hkv : params.keyVals.isEmpty
            · simpa [processRequestMsg, hcmd, hp, hkv] using h
            · have hmp := mergePublication_wf st now
                { keyVals := params.keyVals.map (fun kv =>
                    if kv.2.value.isSome then
                      let hsh := generateHash kv.2.version kv.2.originatorId kv.2.value
                      (kv.1, { kv.2 with hash := some hsh })
                    else kv),
                  nodeIds := params.nodeIds, floodRootId := params.floodRootId } none h
              by_cases hs : params.solicitResponse <;>
                simpa [processRequestMsg, hcmd, hp, hkv, hs] using hmp
    case keyGet =>
        cases hp : req.keyGetParams <;> simpa [processRequestMsg, hcmd, hp] using h
    case keyDump =>
        cases hp : req.keyDumpParams with
        | none => simpa [processRequestMsg, hcmd, hp] using h
        | some params =>
            cases hh : params.2.2 <;> simpa [processRequestMsg, hcmd, hp, hh] using h
    case hashDump =>
        cases hp : req.keyDumpParams <;> simpa [processRequestMsg, hcmd, hp] using h
    case countersGet => simpa [processRequestMsg, hcmd] using h
    case peerAdd =>
        cases hp : req.peerAddParams with
        | none => simpa [processRequestMsg, hcmd, hp] using h
        | some peers =>
            by_cases he : peers.isEmpty <;>
              simpa [processRequestMsg, hcmd, hp, he, KvState.addPeers] using h
    case peerDel =>
        cases hp : req.peerDelParams with
        | none => simpa [processRequestMsg, hcmd, hp] using h
        | some names =>
            by_cases he : names.isEmpty <;>
              simpa [processRequestMsg, hcmd, hp, he, KvState.delPeers] using h
    case peerDump => simpa [processRequestMsg, hcmd] using h
    case dual =>
        cases hp : req.dualMessages with
        | none => simpa [processRequestMsg, hcmd, hp] using h
        | some msgs =>
            by_cases he : msgs.isEmpty <;> simpa [processRequestMsg, hcmd, hp, he] using h
    case floodTopoSet =>
        cases hp : req.floodTopoSetParams <;> simpa [processRequestMsg, hcmd, hp] using h
    case floodTopoGet => simpa [processRequestMsg, hcmd] using h
  · intro store f h kv hkv
    unfold dumpHashWithFilters at hkv
    simp only [List.mem_map, List.mem_filter] at hkv
    obtain ⟨⟨k1, v1⟩, ⟨hmem, -⟩, heq⟩ := hkv
    have := (h (k1, v1) hmem).2
    subst heq
    simpa using this

/-- Witness for C10: well-formedness after merging one record into the
empty store, and hash presence in its HASH_DUMP. -/
theorem store_records_wellformed_witness :
    storeWF ((mergeKeyValues [] [("k", ⟨1, "a", some "x", 5000, 1, none⟩)] none).1) ∧
    (∀ kv ∈ (dumpHashWithFilters
        [("k", ⟨1, "a", some "x", 5000, 1, some 7⟩)] ⟨[], []⟩).keyVals, kv.2.hash.isSome) :=
  ⟨store_records_wellformed.1 [] _ none (by decide),
   store_records_wellformed.2.2.2.2 _ _ (by decide)⟩

end OpenrKv
